import Mathlib

/-!
# Verification of the joy-cli promotion and value-hydration engine

Shallow embedding of the Go sources:
* `internal/release/render/render.go` — the value-hydration engine
  (DSL resolution, override mappings, path splitting);
* the `promote` package (`Promote`, `getSourceEnvironments`,
  `getTargetEnvironments`, `preview`).

Go's dynamically typed YAML values (`any`) are modelled by the closed
variant `Val` below.  Go maps are modelled as association lists
(first-match lookup, insertion order preserved); Go's `map[string]any`
becomes `SMap` and `map[any]any` becomes `AMap`.  Numeric scalars are
modelled as `Int` (floating point plays no role in any property here).
Fallible Go functions returning `(T, error)` become `Except String T`.
-/

namespace Joy

mutual

/-- A dynamically shaped YAML value (`any` in the Go sources). -/
inductive Val where
  | null : Val
  | bool : Bool → Val
  | int : Int → Val
  | str : String → Val
  | seq : ValList → Val
  | smap : SMap → Val
  | amap : AMap → Val

/-- A Go `[]any` slice of values. -/
inductive ValList where
  | nil : ValList
  | cons : Val → ValList → ValList

/-- A Go `map[string]any`, as an association list. -/
inductive SMap where
  | nil : SMap
  | cons : String → Val → SMap → SMap

/-- A Go `map[any]any`, as an association list. -/
inductive AMap where
  | nil : AMap
  | cons : Val → Val → AMap → AMap

end

deriving instance DecidableEq for Val
deriving instance DecidableEq for ValList
deriving instance DecidableEq for SMap
deriving instance DecidableEq for AMap

/-- Convert a Lean list of values to a `ValList` (notation helper only). -/
def vlOf : List Val → ValList
  | [] => .nil
  | v :: rest => .cons v (vlOf rest)

/-- Convert a Lean list of entries to an `SMap` (notation helper only). -/
def smOf : List (String × Val) → SMap
  | [] => .nil
  | (k, v) :: rest => .cons k v (smOf rest)

/-- Go map lookup `values[key]` on the association-list model
(first matching entry wins). -/
def lookupSMap : SMap → String → Option Val
  | .nil, _ => none
  | .cons k v rest, key => if k = key then some v else lookupSMap rest key

/-- Go slice append of two `ValList`s. -/
def appendVL : ValList → ValList → ValList
  | .nil, ys => ys
  | .cons x xs, ys => .cons x (appendVL xs ys)

/-- Go type name of a value as printed by the `%T` format verb
(used in the `$spread()` error message of `hydrateObjectValue`). -/
def goTypeName : Val → String
  | .null => "<nil>"
  | .bool _ => "bool"
  | .int _ => "int"
  | .str _ => "string"
  | .seq _ => "[]interface {}"
  | .smap _ => "map[string]interface {}"
  | .amap _ => "map[interface {}]interface {}"

mutual

/-- `fmt.Sprint` of a value, used by `hydrateObjectValue` to stringify
non-string map keys.  Exact on scalars; on composite values it
approximates Go's rendering (Go additionally sorts map keys), which no
property here depends on. -/
def sprint : Val → String
  | .null => "<nil>"
  | .bool b => if b then "true" else "false"
  | .int n => toString n
  | .str s => s
  | .seq items => "[" ++ sprintList items ++ "]"
  | .smap m => "map[" ++ sprintSMap m ++ "]"
  | .amap m => "map[" ++ sprintAMap m ++ "]"
termination_by structural v => v

def sprintList : ValList → String
  | .nil => ""
  | .cons v .nil => sprint v
  | .cons v rest => sprint v ++ " " ++ sprintList rest
termination_by structural l => l

def sprintSMap : SMap → String
  | .nil => ""
  | .cons k v .nil => k ++ ":" ++ sprint v
  | .cons k v rest => k ++ ":" ++ sprint v ++ " " ++ sprintSMap rest
termination_by structural m => m

def sprintAMap : AMap → String
  | .nil => ""
  | .cons k v .nil => sprint k ++ ":" ++ sprint v
  | .cons k v rest => sprint k ++ ":" ++ sprint v ++ " " ++ sprintAMap rest
termination_by structural m => m

end

/-! ## The interpolation-DSL recognizer

The Go source recognizes operators with the anchored regular expression
`^\s*\$(\w+)\(\s*((\.\w+)+)\s*\)\s*$` (`objectValuesRegex`).  Because the
character classes involved (`\w`, `\s`, literals `$ ( ) .`) are pairwise
disjoint, the regex matches exactly the strings accepted by the
maximal-munch parser below, which also returns the two capture groups
(operator name and full dotted path). -/

/-- Go regexp `\w`: ASCII letters, digits and underscore. -/
def isWordChar (c : Char) : Bool := c.isAlpha || c.isDigit || c = '_'

/-- Go regexp `\s`: the five whitespace characters of RE2. -/
def isSpaceGo (c : Char) : Bool :=
  c = ' ' || c = '\t' || c = '\n' || c = '\x0c' || c = '\r'

/-- Parse one-or-more `(\.\w+)` groups (maximal munch), returning the
consumed characters and the remainder.  The `fuel` argument only makes
the recursion structural; callers pass the input length, which the loop
can never exhaust since every group consumes at least two characters. -/
def parseSegsAux : Nat → List Char → (List Char × List Char)
  | 0, cs => ([], cs)
  | fuel + 1, cs =>
    match cs with
    | '.' :: rest =>
      match rest.takeWhile isWordChar with
      | [] => ([], cs)
      | w =>
        let (more, rest') := parseSegsAux fuel (rest.dropWhile isWordChar)
        ('.' :: w ++ more, rest')
    | _ => ([], cs)

/-- `objectValuesRegex.FindStringSubmatch`: `some (operator, fullPath)`
when the whole string matches, `none` otherwise. -/
def parseDsl (value : String) : Option (String × String) :=
  match (value.data.dropWhile isSpaceGo) with
  | '$' :: rest =>
    match rest.takeWhile isWordChar with
    | [] => none
    | op =>
      match rest.dropWhile isWordChar with
      | '(' :: rest2 =>
        let rest3 := rest2.dropWhile isSpaceGo
        match parseSegsAux rest3.length rest3 with
        | ([], _) => none
        | (path, rest4) =>
          match rest4.dropWhile isSpaceGo with
          | ')' :: rest5 =>
            if (rest5.dropWhile isSpaceGo).isEmpty then
              some (String.mk op, String.mk path)
            else none
          | _ => none
      | _ => none
  | _ => none

/-- `objectValuesSupportedPrefix` of the Go source: the only path root
accepted for object interpolation. -/
def objectValuesSupportedRoot : String := ".Environment.Spec.Values."

/-- Go `strings.HasPrefix p s` on character lists (byte and character
indexing agree here: the strings involved are ASCII). -/
def goHasPrefix (p s : List Char) : Bool := List.isPrefixOf p s

/-- Helper of `goSplitOnDot`: accumulates the current segment. -/
def goSplitOnDotAux : List Char → List Char → List String
  | [], acc => [String.mk acc.reverse]
  | '.' :: rest, acc => String.mk acc.reverse :: goSplitOnDotAux rest []
  | c :: rest, acc => goSplitOnDotAux rest (c :: acc)

/-- Go `strings.Split(s, ".")`: cut at every dot; the empty string
yields `[""]`, and `n` dots yield `n + 1` segments. -/
def goSplitOnDot (cs : List Char) : List String := goSplitOnDotAux cs []

/-- The path segments of an interpolation expression: Go
`strings.Split(strings.TrimPrefix(fullPath, objectValuesSupportedPrefix), ".")`
(the root is ASCII, so byte- and character-level trimming agree). -/
def refPathSegs (fullPath : String) : List String :=
  goSplitOnDot (fullPath.data.drop objectValuesSupportedRoot.data.length)

/-- `resolveObjectValue` of `render.go`: walk the environment's value
tree segment by segment.  Only a `map[string]any` may be traversed at a
non-final segment; the final segment may hold any value.  (Go would
panic on an empty path; its callers always pass at least one segment,
`strings.Split` never returning an empty slice.) -/
def resolveObjectValue (values : SMap) (path : List String) : Except String Val :=
  match path with
  | [] => .error "empty path"
  | key :: rest =>
    match lookupSMap values key with
    | none => .error ("key \"" ++ key ++ "\" not found in values")
    | some value =>
      if rest.isEmpty then .ok value
      else
        match value with
        | .smap m => resolveObjectValue m rest
        | _ => .error ("value for key \"" ++ key ++ "\" is not a map")

/-- `resolveOperatorAndValue` of `render.go`: recognize a whole-string
operator expression; a non-matching string passes through with an empty
operator.  Error messages follow the Go `fmt.Errorf` formats. -/
def resolveOperatorAndValue (value : String) (envValues : SMap) :
    Except String (String × Val) :=
  match parseDsl value with
  | none => .ok ("", .str value)
  | some (operator, fullPath) =>
    if operator ≠ "spread" ∧ operator ≠ "ref" then
      .error ("unsupported object interpolation operator \"" ++ operator ++
        "\" in expression: " ++ value)
    else if ¬ (goHasPrefix objectValuesSupportedRoot.data fullPath.data) then
      .error ("only \"" ++ objectValuesSupportedRoot ++
        "\" prefix is supported for object interpolation, but found: " ++ fullPath)
    else
      match resolveObjectValue envValues (refPathSegs fullPath) with
      | .error err =>
        .error ("resolving object value for path \"" ++ fullPath ++ "\": " ++ err)
      | .ok resolvedValue => .ok (operator, resolvedValue)

mutual

/-- `hydrateObjectValue` of `render.go`: depth-first DSL resolution over
a value.  Strings are operator-resolved (only `$ref` legal outside a
sequence); string-keyed maps are rebuilt key by key; `map[any]any` maps
are rebuilt with `fmt.Sprint`-stringified keys; sequences get the
special `$spread` handling of `hydrateSeqItems`; all other values pass
through unchanged. -/
def hydrateObjectValue : Val → SMap → Except String Val
  | .str s, env =>
    match resolveOperatorAndValue s env with
    | .error e => .error e
    | .ok (operator, resolvedValue) =>
      if operator ≠ "" ∧ operator ≠ "ref" then
        .error ("only $ref() operator supported within object: " ++ s)
      else .ok resolvedValue
  | .smap entries, env =>
    match hydrateSMapEntries entries env with
    | .error e => .error e
    | .ok r => .ok (.smap r)
  | .amap entries, env =>
    match hydrateAMapEntries entries env with
    | .error e => .error e
    | .ok r => .ok (.smap r)
  | .seq items, env =>
    match hydrateSeqItems items env with
    | .error e => .error e
    | .ok r => .ok (.seq r)
  | v, _ => .ok v
termination_by structural v _ => v

/-- The `case map[string]any` loop of `hydrateObjectValue`. -/
def hydrateSMapEntries : SMap → SMap → Except String SMap
  | .nil, _ => .ok .nil
  | .cons k v rest, env =>
    match hydrateObjectValue v env with
    | .error e => .error e
    | .ok r =>
      match hydrateSMapEntries rest env with
      | .error e => .error e
      | .ok rs => .ok (.cons k r rs)
termination_by structural m _ => m

/-- The `case map[any]any` loop of `hydrateObjectValue`: the rebuilt map
is string-keyed, each key rendered with `fmt.Sprint`. -/
def hydrateAMapEntries : AMap → SMap → Except String SMap
  | .nil, _ => .ok .nil
  | .cons k v rest, env =>
    match hydrateObjectValue v env with
    | .error e => .error e
    | .ok r =>
      match hydrateAMapEntries rest env with
      | .error e => .error e
      | .ok rs => .ok (.cons (sprint k) r rs)
termination_by structural m _ => m

/-- The `case []any` loop of `hydrateObjectValue`: string elements are
operator-resolved in place, a `$spread` result must be a slice and is
inlined (flattened one level); other elements recurse. -/
def hydrateSeqItems : ValList → SMap → Except String ValList
  | .nil, _ => .ok .nil
  | .cons (.str s) rest, env =>
    match resolveOperatorAndValue s env with
    | .error e => .error e
    | .ok (operator, resolvedValue) =>
      if operator = "spread" then
        match resolvedValue with
        | .seq items =>
          match hydrateSeqItems rest env with
          | .error e => .error e
          | .ok rs => .ok (appendVL items rs)
        | _ =>
          .error ("$spread() operator must resolve to an array, but got: " ++
            goTypeName resolvedValue)
      else
        match hydrateSeqItems rest env with
        | .error e => .error e
        | .ok rs => .ok (.cons resolvedValue rs)
  | .cons v rest, env =>
    match hydrateObjectValue v env with
    | .error e => .error e
    | .ok r =>
      match hydrateSeqItems rest env with
      | .error e => .error e
      | .ok rs => .ok (.cons r rs)
termination_by structural l _ => l

end

/-- `hydrateObjectValues` of `render.go`: hydrate a whole release value
tree.  (The Go code re-asserts the result to `map[string]any`, which by
construction always succeeds; the third branch is unreachable.) -/
def hydrateObjectValues (values : SMap) (envValues : SMap) : Except String SMap :=
  match hydrateObjectValue (.smap values) envValues with
  | .error e => .error e
  | .ok (.smap m) => .ok m
  | .ok _ => .error "internal: hydrated root is not a map"

/-! ## Override mappings: `setInMap` and `splitIntoPathSegments` -/

/-- Go map assignment `mapping[key] = value` on the association-list
model: replace the first matching entry, or append a new one. -/
def setEntry : SMap → String → Val → SMap
  | .nil, key, value => .cons key value .nil
  | .cons k v rest, key, value =>
    if k = key then .cons key value rest else .cons k v (setEntry rest key value)

/-- `setInMap` of `render.go`: walk the dotted path; at the final
segment set the value only if the key is absent; at a non-final segment
descend into an existing `map[string]any`, create a missing submap on
demand, and bail out silently if the existing value is not a
`map[string]any`.  (Go mutates in place and returns nothing; the model
returns the updated tree.) -/
def setInMap : SMap → List String → Val → SMap
  | mapping, [], _ => mapping
  | mapping, key :: rest, value =>
    match rest, lookupSMap mapping key with
    | [], some _ => mapping
    | [], none => setEntry mapping key value
    | _ :: _, none => setEntry mapping key (.smap (setInMap .nil rest value))
    | _ :: _, some (.smap sub) => setEntry mapping key (.smap (setInMap sub rest value))
    | _ :: _, some _ => mapping

/-- First pass of `sanitize` in `splitIntoPathSegments`:
Go `strings.ReplaceAll(value, "\\.", ".")` (leftmost, non-overlapping). -/
def replaceEscDot : List Char → List Char
  | '\\' :: '.' :: rest => '.' :: replaceEscDot rest
  | c :: rest => c :: replaceEscDot rest
  | [] => []

/-- Second pass of `sanitize` in `splitIntoPathSegments`:
Go `strings.ReplaceAll(value, "\\\\", "\\")` (leftmost, non-overlapping). -/
def replaceEscEsc : List Char → List Char
  | '\\' :: '\\' :: rest => '\\' :: replaceEscEsc rest
  | c :: rest => c :: replaceEscEsc rest
  | [] => []

/-- The `sanitize` closure of `splitIntoPathSegments`. -/
def sanitizeSegment (cs : List Char) : String :=
  String.mk (replaceEscEsc (replaceEscDot cs))

/-- The character loop of `splitIntoPathSegments`, carrying the Go
`escaped` flag and the current segment (reversed).  It reproduces the Go
code exactly, including the quirk that an escaped dot leaves the
`escaped` flag set (the `continue` statement skips the reset). -/
def splitSegsLoop : List Char → Bool → List Char → List String
  | [], _, acc => [sanitizeSegment acc.reverse]
  | c :: cs, escaped, acc =>
    if c = '\\' then splitSegsLoop cs (!escaped) ('\\' :: acc)
    else if c = '.' then
      if escaped then splitSegsLoop cs escaped ('.' :: acc)
      else sanitizeSegment acc.reverse :: splitSegsLoop cs false []
    else splitSegsLoop cs false (c :: acc)

/-- `splitIntoPathSegments` of `render.go`: split a dotted path on
unescaped dots, unescaping `\.` and `\\` within each segment. -/
def splitIntoPathSegments (input : String) : List String :=
  splitSegsLoop input.data false []

/-- `config.ValueMapping`: the static override-mapping configuration
(dotted paths to literal values, plus the release-name ignore list).
Go's `Mappings` is a map iterated in unspecified order; the model fixes
an order via a list, which no verified property depends on. -/
structure ValueMapping where
  mappings : List (String × Val)
  releaseIgnoreList : List String

/-- The override-mapping stage of `HydrateValues` (render.go lines
177–181): if a mapping configuration is present and the release is not
in the ignore list, apply every configured dotted path with `setInMap`'s
do-not-overwrite semantics. -/
def applyOverrides (values : SMap) (mappings : Option ValueMapping)
    (releaseName : String) : SMap :=
  match mappings with
  | none => values
  | some vm =>
    if vm.releaseIgnoreList.contains releaseName then values
    else vm.mappings.foldl
      (fun acc p => setInMap acc (splitIntoPathSegments p.1) p.2) values

/-! Spec-side path predicates used to state the `setInMap` properties.
"The full path exists" means every non-final segment resolves through a
string-keyed map and the final key is present; "blocked" means some
non-final segment is present but holds a non-map value. -/

/-- The dotted path fully exists in the tree. -/
def pathExists : SMap → List String → Bool
  | _, [] => false
  | m, key :: rest =>
    match rest, lookupSMap m key with
    | [], r => r.isSome
    | _ :: _, some (.smap sub) => pathExists sub rest
    | _ :: _, _ => false

/-- The value sitting at a fully existing dotted path. -/
def getAtPath : SMap → List String → Option Val
  | _, [] => none
  | m, key :: rest =>
    match rest, lookupSMap m key with
    | [], r => r
    | _ :: _, some (.smap sub) => getAtPath sub rest
    | _ :: _, _ => none

/-- Some non-final segment of the path is present but holds a value
that is not a string-keyed map. -/
def blockedPath : SMap → List String → Bool
  | _, [] => false
  | m, key :: rest =>
    match rest, lookupSMap m key with
    | [], _ => false
    | _ :: _, some (.smap sub) => blockedPath sub rest
    | _ :: _, some _ => true
    | _ :: _, none => false

/-! ## The promotion engine

The `promote` package.  `Promote`, `getSourceEnvironments`,
`getTargetEnvironments` and `preview` are translated from the source.
The collaborators that `Promote` calls through interfaces or whose
source files are not part of the verified tree (the `PromptProvider`
and `GitProvider` implementations, `pr.PullRequestProvider`, the
`cross.ReleaseList` methods, and `perform`) are abstracted as function
fields of `PromoteDeps`: each field stands for the observable behavior
of one collaborator call, and all theorems quantify over them. -/

/-- Modelled from the spec: `v1alpha1.Environment` (its source file is
not part of the verified tree) — a unique name, the promotion policy
(`fromEnvironments` plus the auto-merge flag).  The environment's own
value tree plays no role in promotion and is carried separately by the
hydration engine. -/
structure Environment where
  name : String
  fromEnvironments : List String
  allowAutoMerge : Bool
deriving DecidableEq

/-- Modelled from the spec: `Environment.IsPromotableTo(target)` is a
pure membership check of the source's name in the target's
allowed-sources list. -/
def isPromotableTo (source target : Environment) : Bool :=
  target.fromEnvironments.contains source.name

/-- The `envsMap` set of `getSourceEnvironments`: every name mentioned
in any environment's `fromEnvironments` (Go's `map[string]bool` set is
modelled as a name list queried by membership). -/
def sourceNamePool (environments : List Environment) : List String :=
  environments.foldl (fun acc env => acc ++ env.fromEnvironments) []

/-- The second loop of `getSourceEnvironments`: keep the environments
whose own name is in the pool, in order. -/
def sourceCandidates (environments : List Environment) : List Environment :=
  environments.foldl
    (fun acc env =>
      if (sourceNamePool environments).contains env.name then acc ++ [env] else acc)
    []

/-- `getSourceEnvironments` of the promote package. -/
def getSourceEnvironments (environments : List Environment) :
    Except String (List Environment) :=
  let envs := sourceCandidates environments
  if envs.isEmpty then .error "no promotable source environments found"
  else .ok envs

/-- The nested loops of `getTargetEnvironments`: keep every environment
other than the source (compared by name) once per occurrence of the
source's name in its `fromEnvironments`. -/
def targetCandidates (environments : List Environment)
    (sourceEnvironment : Environment) : List Environment :=
  environments.foldl
    (fun acc env =>
      if env.name ≠ sourceEnvironment.name then
        env.fromEnvironments.foldl
          (fun acc2 source =>
            if source = sourceEnvironment.name then acc2 ++ [env] else acc2)
          acc
      else acc)
    []

/-- `getTargetEnvironments` of the promote package. -/
def getTargetEnvironments (environments : List Environment)
    (sourceEnvironment : Environment) : Except String (List Environment) :=
  let envs := targetCandidates environments sourceEnvironment
  if envs.isEmpty then
    .error ("no target environments found to promote from " ++ sourceEnvironment.name)
  else .ok envs

/-- Modelled from the spec: a release inside a cross-release row; only
its parsed-document handle matters to `Promote` (passed to the preview
prompt).  Files are opaque handles, identified by a number. -/
structure ReleaseM where
  file : Nat

/-- Modelled from the spec: one `cross.Release` row — a release name, a
fixed (source, target) pair of release-or-absent slots, and the staged
promoted file (`nil`/`none` when source and target are already in
sync). -/
structure CrossReleaseM where
  name : String
  releases : Option ReleaseM × Option ReleaseM
  promotedFile : Option Nat

/-- Modelled from the spec: `cross.ReleaseList` — the ordered rows plus
the (source, target) environment pair the list was built for. -/
structure ReleaseListM where
  items : List CrossReleaseM
  environments : Environment × Environment

/-- The `PerformParams` assembled by `Promote` and handed to `perform`
(template/config fields that only parameterize text rendering are not
modelled). -/
structure PerformOptsM where
  list : ReleaseListM
  autoMerge : Bool
  draft : Bool
  dryRun : Bool

/-- The answer type of the create-pull-request prompt. -/
inductive PromotionAnswer where
  | ready
  | draft
  | cancel
deriving DecidableEq

/-- The behavior of every collaborator `Promote` interacts with in one
run.  Prompt methods that only print (`PrintCanceled`,
`PrintNoPromotableReleasesFound`, …) have no observable result and are
not modelled.  `perform` (whose source file is not part of the verified
tree) returns the pull-request URL and, as the model's effect log, the
list of release files it wrote; every other collaborator is
effect-free on release files.  The `cross.ReleaseList` methods
(`HasAnyPromotableReleases`, `OnlySpecificReleases`,
`GetNonPromotableReleases`), also absent from the verified tree, are
likewise abstracted as arbitrary functions. -/
structure PromoteDeps where
  ensureCleanAndUpToDateWorkingCopy : Except String Unit
  selectSourceEnvironment : List Environment → Except String Environment
  selectTargetEnvironment : List Environment → Except String Environment
  getReleasesForPromotion : Environment → Environment → Except String ReleaseListM
  hasAnyPromotableReleases : ReleaseListM → Bool
  onlySpecificReleases : ReleaseListM → List String → ReleaseListM
  selectReleases : ReleaseListM → Except String ReleaseListM
  getNonPromotableReleases : ReleaseListM → Environment → Environment → List String
  printReleasePreview : String → String → Option Nat → Nat → Except String Unit
  confirmCreatingPromotionPullRequest : Bool → Bool → Except String Bool
  selectCreatingPromotionPullRequest : Except String PromotionAnswer
  confirmAutoMergePullRequest : Except String Bool
  perform : PerformOptsM → Except String String × List Nat

/-- `promote.Opts` (the catalog itself is folded into
`PromoteDeps.getReleasesForPromotion`). -/
structure PromoteOpts where
  sourceEnv : Option Environment
  targetEnv : Option Environment
  releases : List String
  releasesFiltered : Bool
  noPrompt : Bool
  autoMerge : Bool
  draft : Bool
  selectedEnvironments : List Environment
  dryRun : Bool

/-- The source-environment block of `Promote`: an explicitly given
source is used as is; otherwise the candidates are computed and the
user is prompted. -/
def resolveSourceEnv (deps : PromoteDeps) (opts : PromoteOpts) :
    Except String Environment :=
  match opts.sourceEnv with
  | some e => .ok e
  | none =>
    match getSourceEnvironments opts.selectedEnvironments with
    | .error e => .error e
    | .ok sourceEnvs => deps.selectSourceEnvironment sourceEnvs

/-- The target-environment block of `Promote`. -/
def resolveTargetEnv (deps : PromoteDeps) (opts : PromoteOpts)
    (sourceEnv : Environment) : Except String Environment :=
  match opts.targetEnv with
  | some e => .ok e
  | none =>
    match getTargetEnvironments opts.selectedEnvironments sourceEnv with
    | .error e => .error e
    | .ok targetEnvs => deps.selectTargetEnvironment targetEnvs

/-- The release-selection step of `Promote`: an explicit non-empty
release list filters the cross-release list without prompting;
otherwise the user selects interactively. -/
def selectReleasesStep (deps : PromoteDeps) (opts : PromoteOpts)
    (list : ReleaseListM) : Except String ReleaseListM :=
  if opts.releases.length > 0 then .ok (deps.onlySpecificReleases list opts.releases)
  else deps.selectReleases list

/-- The row loop of `preview`: rows already in sync (`promotedFile =
none`) are skipped; for the rest the target environment name, release
name, current target file and staged promoted file are shown. -/
def previewItems (deps : PromoteDeps) (targetEnvName : String) :
    List CrossReleaseM → Except String Unit
  | [] => .ok ()
  | item :: rest =>
    match item.promotedFile with
    | none => previewItems deps targetEnvName rest
    | some promoted =>
      match deps.printReleasePreview targetEnvName item.name
          ((item.releases.2).map ReleaseM.file) promoted with
      | .error e => .error ("printing release preview: " ++ e)
      | .ok _ => previewItems deps targetEnvName rest

/-- `preview` of the promote package. -/
def previewList (deps : PromoteDeps) (list : ReleaseListM) : Except String Unit :=
  previewItems deps list.environments.2.name list.items

/-- `Promote` of the promote package, returning the Go `(string, error)`
pair as `Except String String` together with the list of release files
written during the run (only `perform` writes; every early return
leaves the catalog untouched). -/
def Promote (deps : PromoteDeps) (opts : PromoteOpts) :
    Except String String × List Nat :=
  match deps.ensureCleanAndUpToDateWorkingCopy with
  | .error e => (.error e, [])
  | .ok _ =>
  match resolveSourceEnv deps opts with
  | .error e => (.error e, [])
  | .ok sourceEnv =>
  match resolveTargetEnv deps opts sourceEnv with
  | .error e => (.error e, [])
  | .ok targetEnv =>
  if ¬ targetEnv.allowAutoMerge ∧ opts.autoMerge then
    (.error ("auto-merge is not allowed for target environment " ++ targetEnv.name), [])
  else if ¬ isPromotableTo sourceEnv targetEnv then
    (.error ("environment " ++ sourceEnv.name ++ " is not promotable to " ++
      targetEnv.name), [])
  else
  match deps.getReleasesForPromotion sourceEnv targetEnv with
  | .error e => (.error ("getting releases for promotion: " ++ e), [])
  | .ok list =>
  if ¬ deps.hasAnyPromotableReleases list then (.ok "", [])
  else
  match selectReleasesStep deps opts list with
  | .error e => (.error ("selecting releases to promote: " ++ e), [])
  | .ok selectedList =>
  if deps.getNonPromotableReleases selectedList sourceEnv targetEnv ≠ [] then
    (.error ("cannot promote releases with non-standard version to " ++
      targetEnv.name ++ " environment"), [])
  else
  match (if ¬ opts.noPrompt then previewList deps selectedList else .ok ()) with
  | .error e => (.error ("previewing: " ++ e), [])
  | .ok _ =>
  let performParams : PerformOptsM :=
    { list := selectedList, autoMerge := opts.autoMerge,
      draft := opts.draft, dryRun := opts.dryRun }
  if opts.noPrompt then deps.perform performParams
  else if opts.autoMerge ∨ opts.draft then
    match deps.confirmCreatingPromotionPullRequest opts.autoMerge opts.draft with
    | .error e => (.error ("confirming creating promotion pull request: " ++ e), [])
    | .ok false => (.ok "", [])
    | .ok true => deps.perform performParams
  else
    match deps.selectCreatingPromotionPullRequest with
    | .error e => (.error ("selecting create promotion pull request: " ++ e), [])
    | .ok .ready =>
      if targetEnv.allowAutoMerge then
        match deps.confirmAutoMergePullRequest with
        | .error e => (.error ("confirming automerge: " ++ e), [])
        | .ok confirmed => deps.perform { performParams with autoMerge := confirmed }
      else deps.perform performParams
    | .ok .draft => deps.perform { performParams with draft := true }
    | .ok .cancel => (.ok "", [])

/-! ## Heap model of the hydration pipeline

`HydrateValues` claims (comment at render.go line 170) that DSL
resolution deep-copies the values "for subsequent step to mutate the
copy without affecting the original values".  Go's `map[string]any` is
a reference type, so copying versus sharing is observable there.  The
pure model above cannot express sharing; this second translation of the
same two stages makes map identity explicit: every `map[string]any` is
an address into a `Heap`, hydration allocates the maps it rebuilds, and
`setInMapH` mutates the heap.  Scalars are immutable in Go and stay by
value; slices are also kept by value because no code path mutates
through a slice (`setInMap` only traverses maps); the `map[any]any`
branch of the walker plays no role in sharing and is not reproduced
here.  Recursion through the heap is bounded by explicit fuel: Go's
termination relies on YAML-decoded trees being acyclic. -/

/-- An immutable Go scalar. -/
inductive Scal where
  | null : Scal
  | bool : Bool → Scal
  | int : Int → Scal
  | str : String → Scal
deriving DecidableEq

/-- A value with explicit map identity: maps are heap addresses. -/
inductive HVal where
  | scalar : Scal → HVal
  | seq : List HVal → HVal
  | mref : Nat → HVal

/-- The store of live `map[string]any` objects, indexed by address. -/
abbrev Heap := List (List (String × HVal))

/-- Dereference a map address. -/
def heapRead (h : Heap) (a : Nat) : Option (List (String × HVal)) :=
  List.getD (h.map some) a none

/-- Overwrite the map stored at an address. -/
def heapWrite (h : Heap) (a : Nat) (entries : List (String × HVal)) : Heap :=
  List.set h a entries

/-- Go map lookup on a heap-resident map's entry list. -/
def lookupH : List (String × HVal) → String → Option HVal
  | [], _ => none
  | (k, v) :: rest, key => if k = key then some v else lookupH rest key

/-- `resolveObjectValue` against the heap: traversal follows map
references; the returned value is the stored one — shared, not copied. -/
def resolveObjectValueH (h : Heap) (addr : Nat) (path : List String) :
    Except String HVal :=
  match path with
  | [] => .error "empty path"
  | key :: rest =>
    match heapRead h addr with
    | none => .error "dangling map reference"
    | some entries =>
      match lookupH entries key with
      | none => .error ("key \"" ++ key ++ "\" not found in values")
      | some value =>
        if rest.isEmpty then .ok value
        else
          match value with
          | .mref a => resolveObjectValueH h a rest
          | _ => .error ("value for key \"" ++ key ++ "\" is not a map")

/-- `resolveOperatorAndValue` against the heap. -/
def resolveOperatorAndValueH (h : Heap) (value : String) (envAddr : Nat) :
    Except String (String × HVal) :=
  match parseDsl value with
  | none => .ok ("", .scalar (.str value))
  | some (operator, fullPath) =>
    if operator ≠ "spread" ∧ operator ≠ "ref" then
      .error ("unsupported object interpolation operator \"" ++ operator ++
        "\" in expression: " ++ value)
    else if ¬ (goHasPrefix objectValuesSupportedRoot.data fullPath.data) then
      .error ("only \"" ++ objectValuesSupportedRoot ++
        "\" prefix is supported for object interpolation, but found: " ++ fullPath)
    else
      match resolveObjectValueH h envAddr (refPathSegs fullPath) with
      | .error err =>
        .error ("resolving object value for path \"" ++ fullPath ++ "\": " ++ err)
      | .ok resolvedValue => .ok (operator, resolvedValue)

mutual

/-- `hydrateObjectValue` against the heap: maps reached through the
release's own tree are rebuilt at fresh addresses (the "deep copy"),
but values returned by `$ref`/`$spread` resolution are inserted as
stored — a `$ref` to an environment submap shares that submap. -/
def hydrateH (fuel : Nat) (h : Heap) (v : HVal) (envAddr : Nat) :
    Except String (HVal × Heap) :=
  match fuel with
  | 0 => .error "out of fuel"
  | fuel + 1 =>
    match v with
    | .scalar (.str s) =>
      match resolveOperatorAndValueH h s envAddr with
      | .error e => .error e
      | .ok (operator, resolvedValue) =>
        if operator ≠ "" ∧ operator ≠ "ref" then
          .error ("only $ref() operator supported within object: " ++ s)
        else .ok (resolvedValue, h)
    | .scalar sc => .ok (.scalar sc, h)
    | .seq items =>
      match hydrateSeqH fuel h items envAddr with
      | .error e => .error e
      | .ok (items', h') => .ok (.seq items', h')
    | .mref a =>
      match heapRead h a with
      | none => .error "dangling map reference"
      | some entries =>
        match hydrateEntriesH fuel h entries envAddr with
        | .error e => .error e
        | .ok (entries', h') => .ok (.mref h'.length, h' ++ [entries'])

/-- The map-entry loop of `hydrateH`, threading the heap. -/
def hydrateEntriesH (fuel : Nat) (h : Heap) (entries : List (String × HVal))
    (envAddr : Nat) : Except String (List (String × HVal) × Heap) :=
  match fuel with
  | 0 => .error "out of fuel"
  | fuel + 1 =>
    match entries with
    | [] => .ok ([], h)
    | (k, v) :: rest =>
      match hydrateH fuel h v envAddr with
      | .error e => .error e
      | .ok (v', h') =>
        match hydrateEntriesH fuel h' rest envAddr with
        | .error e => .error e
        | .ok (rest', h'') => .ok ((k, v') :: rest', h'')

/-- The sequence loop of `hydrateH`, with the `$spread` splice. -/
def hydrateSeqH (fuel : Nat) (h : Heap) (items : List HVal) (envAddr : Nat) :
    Except String (List HVal × Heap) :=
  match fuel with
  | 0 => .error "out of fuel"
  | fuel + 1 =>
    match items with
    | [] => .ok ([], h)
    | .scalar (.str s) :: rest =>
      match resolveOperatorAndValueH h s envAddr with
      | .error e => .error e
      | .ok (operator, resolvedValue) =>
        if operator = "spread" then
          match resolvedValue with
          | .seq spreadItems =>
            match hydrateSeqH fuel h rest envAddr with
            | .error e => .error e
            | .ok (rest', h') => .ok (spreadItems ++ rest', h')
          | _ =>
            -- Go formats the offending type with %T here (exactly as in
            -- the pure model); only the success path matters to the
            -- sharing property, so the text is abbreviated.
            .error "$spread() operator must resolve to an array"
        else
          match hydrateSeqH fuel h rest envAddr with
          | .error e => .error e
          | .ok (rest', h') => .ok (resolvedValue :: rest', h')
    | v :: rest =>
      match hydrateH fuel h v envAddr with
      | .error e => .error e
      | .ok (v', h') =>
        match hydrateSeqH fuel h' rest envAddr with
        | .error e => .error e
        | .ok (rest', h'') => .ok (v' :: rest', h'')

end

/-- `setInMap` against the heap: descend through map references,
mutating the final map in place — whichever tree happens to own it. -/
def setInMapH (h : Heap) (addr : Nat) (segments : List String) (value : HVal) :
    Heap :=
  match segments with
  | [] => h
  | key :: rest =>
    match heapRead h addr with
    | none => h
    | some entries =>
      match rest, lookupH entries key with
      | [], some _ => h
      | [], none => heapWrite h addr (entries ++ [(key, value)])
      | _ :: _, none =>
        let subAddr := h.length
        let h1 := (h ++ [[]] : Heap)
        let h2 := heapWrite h1 addr (entries ++ [(key, .mref subAddr)])
        setInMapH h2 subAddr rest value
      | _ :: _, some (.mref a) => setInMapH h a rest value
      | _ :: _, some _ => h

/-- The initial heap of the sharing scenario: address 0 is the
environment's `sub` submap (empty), address 1 the environment's value
root `{sub: <0>}`, address 2 the release's value root
`{a: "$ref(.Environment.Spec.Values.sub)"}`. -/
def bugHeap0 : Heap :=
  [[], [("sub", .mref 0)], [("a", .scalar (.str "$ref(.Environment.Spec.Values.sub)"))]]

/-- The heap after DSL resolution of the sharing scenario: the hydrated
copy at address 3 holds `a ↦ <0>` — the environment's own submap. -/
def bugHeap1 : Heap := bugHeap0 ++ [[("a", .mref 0)]]

/-! ## Lemmas about `setEntry`, `lookupSMap` and `setInMap` -/

theorem lookupSMap_setEntry_self : ∀ (m : SMap) (k : String) (v : Val),
    lookupSMap (setEntry m k v) k = some v
  | .nil, k, v => by simp [setEntry, lookupSMap]
  | .cons k' v' rest, k, v => by
    by_cases h : k' = k
    · simp [setEntry, h, lookupSMap]
    · simp [setEntry, h, lookupSMap, lookupSMap_setEntry_self rest k v]
termination_by structural m => m

theorem setEntry_of_lookup_eq : ∀ (m : SMap) (k : String) (v : Val),
    lookupSMap m k = some v → setEntry m k v = m
  | .nil, k, v, h => by simp [lookupSMap] at h
  | .cons k' v' rest, k, v, h => by
    by_cases hk : k' = k
    · simp [lookupSMap, hk] at h
      simp [setEntry, hk, h]
    · simp [lookupSMap, hk] at h
      simp [setEntry, hk, setEntry_of_lookup_eq rest k v h]
termination_by structural m => m

/-! One-step unfolding equations for `setInMap`, `getAtPath`,
`pathExists` and `blockedPath`, phrased so that rewriting never unfolds
the nested recursive call. -/

theorem setInMap_last_none {m : SMap} {key : String} {v : Val}
    (hl : lookupSMap m key = none) :
    setInMap m [key] v = setEntry m key v := by
  simp [setInMap, hl]

theorem setInMap_last_some {m : SMap} {key : String} {v w : Val}
    (hl : lookupSMap m key = some w) :
    setInMap m [key] v = m := by
  simp [setInMap, hl]

theorem setInMap_deep_none {m : SMap} {key k2 : String} {r2 : List String} {v : Val}
    (hl : lookupSMap m key = none) :
    setInMap m (key :: k2 :: r2) v =
      setEntry m key (.smap (setInMap .nil (k2 :: r2) v)) := by
  simp [setInMap, hl]

theorem setInMap_deep_smap {m sub : SMap} {key k2 : String} {r2 : List String} {v : Val}
    (hl : lookupSMap m key = some (.smap sub)) :
    setInMap m (key :: k2 :: r2) v =
      setEntry m key (.smap (setInMap sub (k2 :: r2) v)) := by
  simp [setInMap, hl]

theorem getAtPath_single (m : SMap) (key : String) :
    getAtPath m [key] = lookupSMap m key := by
  simp [getAtPath]

theorem getAtPath_deep {m sub : SMap} {key k2 : String} {r2 : List String}
    (hl : lookupSMap m key = some (.smap sub)) :
    getAtPath m (key :: k2 :: r2) = getAtPath sub (k2 :: r2) := by
  simp [getAtPath, hl]

/-- Inversion of `pathExists` at a non-final segment. -/
theorem pathExists_cons_inv {m : SMap} {key k2 : String} {r2 : List String}
    (h : pathExists m (key :: k2 :: r2) = true) :
    ∃ sub, lookupSMap m key = some (.smap sub) ∧ pathExists sub (k2 :: r2) = true := by
  cases hl : lookupSMap m key with
  | none => simp [pathExists, hl] at h
  | some w =>
    cases w with
    | smap sub =>
      refine ⟨sub, rfl, ?_⟩
      simpa [pathExists, hl] using h
    | null => simp [pathExists, hl] at h
    | bool b => simp [pathExists, hl] at h
    | int n => simp [pathExists, hl] at h
    | str s => simp [pathExists, hl] at h
    | seq l => simp [pathExists, hl] at h
    | amap a => simp [pathExists, hl] at h

/-- If the full dotted path exists, `setInMap` leaves the tree
untouched (whatever value, falsy or not, was already there). -/
theorem setInMap_of_pathExists (segs : List String) :
    ∀ (m : SMap) (v : Val), pathExists m segs = true → setInMap m segs v = m := by
  induction segs with
  | nil => intro m v h; simp [pathExists] at h
  | cons key rest ih =>
    intro m v h
    cases rest with
    | nil =>
      cases hl : lookupSMap m key with
      | none => simp [pathExists, hl] at h
      | some w => simp [setInMap, hl]
    | cons k2 r2 =>
      obtain ⟨sub, hl, hsub⟩ := pathExists_cons_inv h
      rw [setInMap_deep_smap hl, ih sub v hsub]
      exact setEntry_of_lookup_eq m key (Val.smap sub) hl

/-- If some non-final segment resolves to an existing non-map value,
`setInMap` leaves the entire tree untouched. -/
theorem setInMap_of_blockedPath (segs : List String) :
    ∀ (m : SMap) (v : Val), blockedPath m segs = true → setInMap m segs v = m := by
  induction segs with
  | nil => intro m v h; simp [blockedPath] at h
  | cons key rest ih =>
    intro m v h
    cases rest with
    | nil => simp [blockedPath] at h
    | cons k2 r2 =>
      cases hl : lookupSMap m key with
      | none => simp [blockedPath, hl] at h
      | some w =>
        cases w with
        | smap sub =>
          have hsub : blockedPath sub (k2 :: r2) = true := by
            simpa [blockedPath, hl] using h
          rw [setInMap_deep_smap hl, ih sub v hsub]
          exact setEntry_of_lookup_eq m key (Val.smap sub) hl
        | null => simp [setInMap, hl]
        | bool b => simp [setInMap, hl]
        | int n => simp [setInMap, hl]
        | str s => simp [setInMap, hl]
        | seq l => simp [setInMap, hl]
        | amap a => simp [setInMap, hl]

/-- On a path that neither exists nor is blocked, `setInMap` creates the
missing intermediate maps and stores the value at the leaf. -/
theorem getAtPath_setInMap (segs : List String) :
    ∀ (m : SMap) (v : Val), segs ≠ [] → pathExists m segs = false →
      blockedPath m segs = false →
      getAtPath (setInMap m segs v) segs = some v := by
  induction segs with
  | nil => intro m v h; exact absurd rfl h
  | cons key rest ih =>
    intro m v _ hpe hbl
    cases rest with
    | nil =>
      cases hl : lookupSMap m key with
      | none =>
        rw [setInMap_last_none hl, getAtPath_single]
        exact lookupSMap_setEntry_self m key v
      | some w => simp [pathExists, hl] at hpe
    | cons k2 r2 =>
      cases hl : lookupSMap m key with
      | none =>
        have hpe' : pathExists SMap.nil (k2 :: r2) = false := by
          cases r2 <;> simp [pathExists, lookupSMap]
        have hbl' : blockedPath SMap.nil (k2 :: r2) = false := by
          cases r2 <;> simp [blockedPath, lookupSMap]
        rw [setInMap_deep_none hl,
          getAtPath_deep (lookupSMap_setEntry_self m key _)]
        exact ih SMap.nil v (by simp) hpe' hbl'
      | some w =>
        cases w with
        | smap sub =>
          have hpe' : pathExists sub (k2 :: r2) = false := by
            simpa [pathExists, hl] using hpe
          have hbl' : blockedPath sub (k2 :: r2) = false := by
            simpa [blockedPath, hl] using hbl
          rw [setInMap_deep_smap hl,
            getAtPath_deep (lookupSMap_setEntry_self m key _)]
          exact ih sub v (by simp) hpe' hbl'
        | null => simp [blockedPath, hl] at hbl
        | bool b => simp [blockedPath, hl] at hbl
        | int n => simp [blockedPath, hl] at hbl
        | str s => simp [blockedPath, hl] at hbl
        | seq l => simp [blockedPath, hl] at hbl
        | amap a => simp [blockedPath, hl] at hbl

/-! ## Claims C4, C9 and C5 -/

/-- C4 (counterexample): the claim "if the path does not exist, missing
intermediate maps are created on demand and the value is set at the
leaf" fails when an existing non-map value blocks an intermediate
segment: on `{a: 5}` with path `a.b`, the path does not exist, yet
`setInMap` changes nothing and the value is not set. -/
theorem c4_counterexample :
    pathExists (smOf [("a", .int 5)]) ["a", "b"] = false ∧
    setInMap (smOf [("a", .int 5)]) ["a", "b"] (.int 7) = smOf [("a", .int 5)] ∧
    getAtPath (setInMap (smOf [("a", .int 5)]) ["a", "b"] (.int 7)) ["a", "b"] = none :=
  ⟨rfl, rfl, rfl⟩

/-- C4 (amended): override mappings have do-not-overwrite semantics —
(1) if the full path already exists, even holding a falsy value, the
tree is unchanged; (2) if the path does not exist **and no existing
non-map value blocks an intermediate segment**, missing intermediate
maps are created on demand and the value is stored at the leaf; (3) a
release named in the ignore list receives no override mappings at
all. -/
theorem c4_override_do_not_overwrite :
    (∀ (m : SMap) (segs : List String) (v : Val),
      pathExists m segs = true → setInMap m segs v = m) ∧
    (∀ (m : SMap) (segs : List String) (v : Val),
      segs ≠ [] → pathExists m segs = false → blockedPath m segs = false →
      getAtPath (setInMap m segs v) segs = some v) ∧
    (∀ (values : SMap) (vm : ValueMapping) (name : String),
      vm.releaseIgnoreList.contains name = true →
      applyOverrides values (some vm) name = values) :=
  ⟨fun m segs v h => setInMap_of_pathExists segs m v h,
   fun m segs v h1 h2 h3 => getAtPath_setInMap segs m v h1 h2 h3,
   fun values vm name h => by simp only [applyOverrides, h, if_true]⟩

/-- C4 (witness): the three parts applied at concrete inputs — an
existing falsy value survives, a two-segment path is created from
scratch, and an ignored release gets no overrides. -/
theorem c4_witness :
    setInMap (smOf [("a", .bool false)]) ["a"] (.str "no") = smOf [("a", .bool false)] ∧
    getAtPath (setInMap (smOf []) ["x", "y"] (.int 2)) ["x", "y"] = some (.int 2) ∧
    applyOverrides (smOf [("k", .int 3)])
      (some ⟨[("p.q", .int 9)], ["api"]⟩) "api" = smOf [("k", .int 3)] :=
  ⟨c4_override_do_not_overwrite.1 _ ["a"] _ rfl,
   c4_override_do_not_overwrite.2.1 _ ["x", "y"] _ (by simp) rfl rfl,
   c4_override_do_not_overwrite.2.2 _ _ "api" rfl⟩

/-- C9: whenever a non-final segment of the path is present (in the map
or in the submap reached so far) but holds a value that is not a
string-keyed map, `setInMap` leaves the entire tree unchanged: nothing
is overwritten and nothing is created below the blocking value (the Go
function returns no error by its very signature). -/
theorem c9_setInMap_blocked_is_noop :
    ∀ (m : SMap) (segs : List String) (v : Val),
      blockedPath m segs = true → setInMap m segs v = m :=
  fun m segs v h => setInMap_of_blockedPath segs m v h

/-- C9 (witness): blocked by the non-map value `5` at segment `a` of
path `a.b.c`. -/
theorem c9_witness :
    setInMap (smOf [("a", .int 5), ("z", .bool true)]) ["a", "b", "c"] (.str "v") =
      smOf [("a", .int 5), ("z", .bool true)] :=
  c9_setInMap_blocked_is_noop _ _ _ rfl

/-- C5 (code bug): hydration does **not** operate on a full deep copy.
Failing input: release values `{a: "$ref(.Environment.Spec.Values.sub)"}`,
environment values `{sub: {}}`, override mapping `{"a.b": 1}`.  In the
heap model, DSL resolution returns a tree whose `a` entry is the
environment's own `sub` map (address 0, shared rather than copied), and
the override stage then inserts `b: 1` into that shared map: after the
two stages the environment's value tree — still reachable as
`sub ↦ <0>` from its root at address 1 — has changed from `{}` to
`{b: 1}`, contradicting the claim that inputs are never mutated (and
the deep-copy comment at render.go line 170). -/
theorem c5_hydration_mutates_environment :
    hydrateH 9 bugHeap0 (.mref 2) 1 = .ok (.mref 3, bugHeap1) ∧
    setInMapH bugHeap1 3 (splitIntoPathSegments "a.b") (.scalar (.int 1)) =
      [[("b", .scalar (.int 1))], [("sub", .mref 0)],
       [("a", .scalar (.str "$ref(.Environment.Spec.Values.sub)"))], [("a", .mref 0)]] ∧
    heapRead bugHeap0 0 = some [] ∧
    heapRead (setInMapH bugHeap1 3 (splitIntoPathSegments "a.b") (.scalar (.int 1))) 0 =
      some [("b", .scalar (.int 1))] ∧
    heapRead bugHeap1 1 = some [("sub", .mref 0)] :=
  ⟨rfl, rfl, rfl, rfl, rfl⟩

/-! ## Claim C2: `$ref` resolution -/

/-- `resolveObjectValue` succeeds exactly on the value found at the
dotted path inside the value tree (`getAtPath` spells out the spec's
"the value found at `<path>`": descend string-keyed mappings, return
what the final key holds). -/
theorem resolveObjectValue_ok_iff :
    ∀ (path : List String) (env : SMap) (v : Val), path ≠ [] →
      (resolveObjectValue env path = .ok v ↔ getAtPath env path = some v) := by
  intro path
  induction path with
  | nil => intro env v h; exact absurd rfl h
  | cons key rest ih =>
    intro env v _
    cases hl : lookupSMap env key with
    | none =>
      cases rest with
      | nil => simp [resolveObjectValue, getAtPath, hl]
      | cons k2 r2 => simp [resolveObjectValue, getAtPath, hl]
    | some w =>
      cases rest with
      | nil => simp [resolveObjectValue, getAtPath, hl]
      | cons k2 r2 =>
        cases w with
        | smap sub =>
          simpa [resolveObjectValue, getAtPath, hl] using ih sub v (by simp)
        | null => simp [resolveObjectValue, getAtPath, hl]
        | bool b => simp [resolveObjectValue, getAtPath, hl]
        | int n => simp [resolveObjectValue, getAtPath, hl]
        | str s => simp [resolveObjectValue, getAtPath, hl]
        | seq l => simp [resolveObjectValue, getAtPath, hl]
        | amap a => simp [resolveObjectValue, getAtPath, hl]

/-- Every `resolveObjectValue` error names the offending path segment:
either the missing key or the key whose value is not a map. -/
theorem resolveObjectValue_error_names_segment :
    ∀ (path : List String) (env : SMap) (err : String),
      resolveObjectValue env path = .error err → path = [] ∨
        ∃ k, k ∈ path ∧ (err = "key \"" ++ k ++ "\" not found in values" ∨
          err = "value for key \"" ++ k ++ "\" is not a map") := by
  intro path
  induction path with
  | nil => intro env err _; exact Or.inl rfl
  | cons key rest ih =>
    intro env err herr
    refine Or.inr ?_
    cases hl : lookupSMap env key with
    | none =>
      refine ⟨key, List.mem_cons_self key rest, Or.inl ?_⟩
      simp [resolveObjectValue, hl] at herr
      exact herr.symm
    | some w =>
      cases rest with
      | nil => simp [resolveObjectValue, hl] at herr
      | cons k2 r2 =>
        cases w with
        | smap sub =>
          have herr' : resolveObjectValue sub (k2 :: r2) = .error err := by
            simpa [resolveObjectValue, hl] using herr
          rcases ih sub err herr' with h | ⟨k, hk, hmsg⟩
          · exact absurd h (by simp)
          · exact ⟨k, List.mem_cons_of_mem key hk, hmsg⟩
        | null =>
          refine ⟨key, by simp, Or.inr ?_⟩
          simp [resolveObjectValue, hl] at herr
          exact herr.symm
        | bool b =>
          refine ⟨key, by simp, Or.inr ?_⟩
          simp [resolveObjectValue, hl] at herr
          exact herr.symm
        | int n =>
          refine ⟨key, by simp, Or.inr ?_⟩
          simp [resolveObjectValue, hl] at herr
          exact herr.symm
        | str s =>
          refine ⟨key, by simp, Or.inr ?_⟩
          simp [resolveObjectValue, hl] at herr
          exact herr.symm
        | seq l =>
          refine ⟨key, by simp, Or.inr ?_⟩
          simp [resolveObjectValue, hl] at herr
          exact herr.symm
        | amap a =>
          refine ⟨key, by simp, Or.inr ?_⟩
          simp [resolveObjectValue, hl] at herr
          exact herr.symm

/-- The environment value tree `{a: {b: 5}}` of the spec's example. -/
def envAB : SMap := smOf [("a", .smap (smOf [("b", .int 5)]))]

/-- The environment value tree `{a: {}}` of the spec's example. -/
def envAEmpty : SMap := smOf [("a", .smap (smOf []))]

/-- C2: a whole-string `$ref(.Environment.Spec.Values.<path>)` scalar is
replaced by the (possibly structured) value found at `<path>` in the
environment's value tree — (1) success returns exactly that value; (2)
resolution failure surfaces as an error wrapping the resolver's
message; (3) resolution succeeds iff the path fully exists
(`getAtPath`); (4) every resolution error names the missing/non-map
segment; and the spec's concrete examples: (5) `a.b` against
`{a:{b:5}}` gives `5` (also in-tree), (6) against `{a:{}}` fails naming
`b`. -/
theorem c2_ref_resolution :
    (∀ (s : String) (env : SMap) (fullPath : String) (v : Val),
      parseDsl s = some ("ref", fullPath) →
      goHasPrefix objectValuesSupportedRoot.data fullPath.data = true →
      resolveObjectValue env (refPathSegs fullPath) = .ok v →
      hydrateObjectValue (.str s) env = .ok v) ∧
    (∀ (s : String) (env : SMap) (fullPath err : String),
      parseDsl s = some ("ref", fullPath) →
      goHasPrefix objectValuesSupportedRoot.data fullPath.data = true →
      resolveObjectValue env (refPathSegs fullPath) = .error err →
      hydrateObjectValue (.str s) env =
        .error ("resolving object value for path \"" ++ fullPath ++ "\": " ++ err)) ∧
    (∀ (path : List String) (env : SMap) (v : Val), path ≠ [] →
      (resolveObjectValue env path = .ok v ↔ getAtPath env path = some v)) ∧
    (∀ (path : List String) (env : SMap) (err : String),
      resolveObjectValue env path = .error err → path = [] ∨
        ∃ k, k ∈ path ∧ (err = "key \"" ++ k ++ "\" not found in values" ∨
          err = "value for key \"" ++ k ++ "\" is not a map")) ∧
    hydrateObjectValue (.str "$ref(.Environment.Spec.Values.a.b)") envAB = .ok (.int 5) ∧
    hydrateObjectValues (smOf [("x", .str "$ref(.Environment.Spec.Values.a.b)")]) envAB =
      .ok (smOf [("x", .int 5)]) ∧
    hydrateObjectValue (.str "$ref(.Environment.Spec.Values.a.b)") envAEmpty =
      .error "resolving object value for path \".Environment.Spec.Values.a.b\": key \"b\" not found in values" := by
  refine ⟨?_, ?_, resolveObjectValue_ok_iff, resolveObjectValue_error_names_segment,
    rfl, rfl, rfl⟩
  · intro s env fullPath v hparse hroot hres
    simp only [hydrateObjectValue, resolveOperatorAndValue, hparse, hroot, hres]
    simp
  · intro s env fullPath err hparse hroot hres
    simp only [hydrateObjectValue, resolveOperatorAndValue, hparse, hroot, hres]
    simp

/-- C2 (witness): part (1) of the theorem applied at the spec's concrete
example, discharging the parse, root and resolution hypotheses by
evaluation. -/
theorem c2_witness :
    hydrateObjectValue (.str " $ref(.Environment.Spec.Values.a.b) ") envAB = .ok (.int 5) :=
  c2_ref_resolution.1 " $ref(.Environment.Spec.Values.a.b) " envAB
    ".Environment.Spec.Values.a.b" (.int 5) rfl rfl rfl

/-! ## Claim C3: `$spread` -/

theorem appendVL_assoc : ∀ (a b c : ValList),
    appendVL (appendVL a b) c = appendVL a (appendVL b c)
  | .nil, _, _ => rfl
  | .cons x xs, b, c => by simp [appendVL, appendVL_assoc xs b c]
termination_by structural a => a

/-- A `$spread` element standing anywhere in a sequence is inlined,
flattened one level, between the hydrations of the elements before and
after it. -/
theorem hydrateSeqItems_spread_mid :
    ∀ (pre : ValList) (s : String) (post : ValList) (env : SMap)
      (items pre' post' : ValList),
      resolveOperatorAndValue s env = .ok ("spread", .seq items) →
      hydrateSeqItems pre env = .ok pre' →
      hydrateSeqItems post env = .ok post' →
      hydrateSeqItems (appendVL pre (.cons (.str s) post)) env =
        .ok (appendVL pre' (appendVL items post'))
  | .nil, s, post, env, items, pre', post', hs, h1, h2 => by
    simp [hydrateSeqItems] at h1
    subst h1
    simp [appendVL, hydrateSeqItems, hs, h2]
  | .cons x xs, s, post, env, items, pre', post', hs, h1, h2 => by
    cases x with
    | str s0 =>
      cases hr0 : resolveOperatorAndValue s0 env with
      | error e => simp [hydrateSeqItems, hr0] at h1
      | ok p =>
        obtain ⟨op0, v0⟩ := p
        by_cases hop : op0 = "spread"
        · subst hop
          cases v0 with
          | seq its =>
            cases hxs : hydrateSeqItems xs env with
            | error e => simp [hydrateSeqItems, hr0, hxs] at h1
            | ok xs' =>
              have hpre' : pre' = appendVL its xs' := by
                simp [hydrateSeqItems, hr0, hxs] at h1
                exact h1.symm
              have ihh := hydrateSeqItems_spread_mid xs s post env items xs' post' hs hxs h2
              subst hpre'
              simp [appendVL, hydrateSeqItems, hr0, ihh, appendVL_assoc]
          | null => simp [hydrateSeqItems, hr0] at h1
          | bool b => simp [hydrateSeqItems, hr0] at h1
          | int n => simp [hydrateSeqItems, hr0] at h1
          | str s2 => simp [hydrateSeqItems, hr0] at h1
          | smap m => simp [hydrateSeqItems, hr0] at h1
          | amap a => simp [hydrateSeqItems, hr0] at h1
        · cases hxs : hydrateSeqItems xs env with
          | error e => simp [hydrateSeqItems, hr0, hop, hxs] at h1
          | ok xs' =>
            have hpre' : pre' = .cons v0 xs' := by
              simp [hydrateSeqItems, hr0, hop, hxs] at h1
              exact h1.symm
            have ihh := hydrateSeqItems_spread_mid xs s post env items xs' post' hs hxs h2
            subst hpre'
            simp [appendVL, hydrateSeqItems, hr0, hop, ihh]
    | null =>
      cases hx : hydrateObjectValue .null env with
      | error e => simp [hydrateSeqItems, hx] at h1
      | ok x0 =>
        cases hxs : hydrateSeqItems xs env with
        | error e => simp [hydrateSeqItems, hx, hxs] at h1
        | ok xs' =>
          have hpre' : pre' = .cons x0 xs' := by
            simp [hydrateSeqItems, hx, hxs] at h1
            exact h1.symm
          have ihh := hydrateSeqItems_spread_mid xs s post env items xs' post' hs hxs h2
          subst hpre'
          simp [appendVL, hydrateSeqItems, hx, ihh]
    | bool b =>
      cases hx : hydrateObjectValue (.bool b) env with
      | error e => simp [hydrateSeqItems, hx] at h1
      | ok x0 =>
        cases hxs : hydrateSeqItems xs env with
        | error e => simp [hydrateSeqItems, hx, hxs] at h1
        | ok xs' =>
          have hpre' : pre' = .cons x0 xs' := by
            simp [hydrateSeqItems, hx, hxs] at h1
            exact h1.symm
          have ihh := hydrateSeqItems_spread_mid xs s post env items xs' post' hs hxs h2
          subst hpre'
          simp [appendVL, hydrateSeqItems, hx, ihh]
    | int n =>
      cases hx : hydrateObjectValue (.int n) env with
      | error e => simp [hydrateSeqItems, hx] at h1
      | ok x0 =>
        cases hxs : hydrateSeqItems xs env with
        | error e => simp [hydrateSeqItems, hx, hxs] at h1
        | ok xs' =>
          have hpre' : pre' = .cons x0 xs' := by
            simp [hydrateSeqItems, hx, hxs] at h1
            exact h1.symm
          have ihh := hydrateSeqItems_spread_mid xs s post env items xs' post' hs hxs h2
          subst hpre'
          simp [appendVL, hydrateSeqItems, hx, ihh]
    | seq l =>
      cases hx : hydrateObjectValue (.seq l) env with
      | error e => simp [hydrateSeqItems, hx] at h1
      | ok x0 =>
        cases hxs : hydrateSeqItems xs env with
        | error e => simp [hydrateSeqItems, hx, hxs] at h1
        | ok xs' =>
          have hpre' : pre' = .cons x0 xs' := by
            simp [hydrateSeqItems, hx, hxs] at h1
            exact h1.symm
          have ihh := hydrateSeqItems_spread_mid xs s post env items xs' post' hs hxs h2
          subst hpre'
          simp [appendVL, hydrateSeqItems, hx, ihh]
    | smap m =>
      cases hx : hydrateObjectValue (.smap m) env with
      | error e => simp [hydrateSeqItems, hx] at h1
      | ok x0 =>
        cases hxs : hydrateSeqItems xs env with
        | error e => simp [hydrateSeqItems, hx, hxs] at h1
        | ok xs' =>
          have hpre' : pre' = .cons x0 xs' := by
            simp [hydrateSeqItems, hx, hxs] at h1
            exact h1.symm
          have ihh := hydrateSeqItems_spread_mid xs s post env items xs' post' hs hxs h2
          subst hpre'
          simp [appendVL, hydrateSeqItems, hx, ihh]
    | amap a =>
      cases hx : hydrateObjectValue (.amap a) env with
      | error e => simp [hydrateSeqItems, hx] at h1
      | ok x0 =>
        cases hxs : hydrateSeqItems xs env with
        | error e => simp [hydrateSeqItems, hx, hxs] at h1
        | ok xs' =>
          have hpre' : pre' = .cons x0 xs' := by
            simp [hydrateSeqItems, hx, hxs] at h1
            exact h1.symm
          have ihh := hydrateSeqItems_spread_mid xs s post env items xs' post' hs hxs h2
          subst hpre'
          simp [appendVL, hydrateSeqItems, hx, ihh]
termination_by structural pre => pre

/-- C3: a whole-string `$spread(...)` scalar is accepted only as a
sequence element — (1) in any non-sequence position it is an error; (2)
as a sequence element whose resolution is not a sequence it is an error
naming the offending Go type; (3) as a sequence element resolving to a
sequence, its elements are inlined (flattened one level) at that
position; and the spec's concrete examples: (4)
`[0, $spread(items), 3]` against `{items: [1,2]}` gives `[0,1,2,3]`,
(5) against `{items: 5}` it fails, (6) outside a sequence it fails. -/
theorem c3_spread_semantics :
    (∀ (s : String) (env : SMap) (fullPath : String),
      parseDsl s = some ("spread", fullPath) →
      ∃ msg, hydrateObjectValue (.str s) env = .error msg) ∧
    (∀ (s : String) (env : SMap) (v : Val) (rest : ValList),
      resolveOperatorAndValue s env = .ok ("spread", v) →
      (∀ items, v ≠ .seq items) →
      hydrateSeqItems (.cons (.str s) rest) env =
        .error ("$spread() operator must resolve to an array, but got: " ++ goTypeName v)) ∧
    (∀ (pre : ValList) (s : String) (post : ValList) (env : SMap)
        (items pre' post' : ValList),
      resolveOperatorAndValue s env = .ok ("spread", .seq items) →
      hydrateSeqItems pre env = .ok pre' →
      hydrateSeqItems post env = .ok post' →
      hydrateSeqItems (appendVL pre (.cons (.str s) post)) env =
        .ok (appendVL pre' (appendVL items post'))) ∧
    hydrateObjectValue
      (.seq (vlOf [.int 0, .str "$spread(.Environment.Spec.Values.items)", .int 3]))
      (smOf [("items", .seq (vlOf [.int 1, .int 2]))]) =
      .ok (.seq (vlOf [.int 0, .int 1, .int 2, .int 3])) ∧
    hydrateObjectValue (.seq (vlOf [.str "$spread(.Environment.Spec.Values.items)"]))
      (smOf [("items", .int 5)]) =
      .error "$spread() operator must resolve to an array, but got: int" ∧
    hydrateObjectValue (.str "$spread(.Environment.Spec.Values.items)")
      (smOf [("items", .seq (vlOf [.int 1, .int 2]))]) =
      .error "only $ref() operator supported within object: $spread(.Environment.Spec.Values.items)" := by
  refine ⟨?_, ?_, hydrateSeqItems_spread_mid, rfl, rfl, rfl⟩
  · intro s env fullPath hparse
    by_cases hroot : goHasPrefix objectValuesSupportedRoot.data fullPath.data = true
    · cases hres : resolveObjectValue env (refPathSegs fullPath) with
      | error err =>
        refine ⟨"resolving object value for path \"" ++ fullPath ++ "\": " ++ err, ?_⟩
        simp only [hydrateObjectValue, resolveOperatorAndValue, hparse, hroot, hres]
        simp
      | ok v =>
        refine ⟨"only $ref() operator supported within object: " ++ s, ?_⟩
        simp only [hydrateObjectValue, resolveOperatorAndValue, hparse, hroot, hres]
        simp
    · refine ⟨"only \"" ++ objectValuesSupportedRoot ++
        "\" prefix is supported for object interpolation, but found: " ++ fullPath, ?_⟩
      have hroot' : goHasPrefix objectValuesSupportedRoot.data fullPath.data = false :=
        Bool.not_eq_true _ ▸ eq_false_of_ne_true hroot
      simp only [hydrateObjectValue, resolveOperatorAndValue, hparse, hroot']
      simp
  · intro s env v rest hres hnseq
    cases v with
    | seq items => exact absurd rfl (hnseq items)
    | null => simp [hydrateSeqItems, hres, goTypeName]
    | bool b => simp [hydrateSeqItems, hres, goTypeName]
    | int n => simp [hydrateSeqItems, hres, goTypeName]
    | str s2 => simp [hydrateSeqItems, hres, goTypeName]
    | smap m => simp [hydrateSeqItems, hres, goTypeName]
    | amap a => simp [hydrateSeqItems, hres, goTypeName]

/-- C3 (witness): the inlining part applied at the spec's example
(`pre = [0]`, `post = [3]`, `items = [1,2]`), and the illegal-position
part applied at a concrete `$spread` expression. -/
theorem c3_witness :
    hydrateSeqItems
      (appendVL (vlOf [.int 0])
        (.cons (.str "$spread(.Environment.Spec.Values.items)") (vlOf [.int 3])))
      (smOf [("items", .seq (vlOf [.int 1, .int 2]))]) =
      .ok (appendVL (vlOf [.int 0]) (appendVL (vlOf [.int 1, .int 2]) (vlOf [.int 3]))) ∧
    ∃ msg, hydrateObjectValue (.str "$spread(.Environment.Spec.Values.x)") (smOf []) =
      .error msg :=
  ⟨c3_spread_semantics.2.2.1 (vlOf [.int 0]) "$spread(.Environment.Spec.Values.items)"
      (vlOf [.int 3]) (smOf [("items", .seq (vlOf [.int 1, .int 2]))])
      (vlOf [.int 1, .int 2]) (vlOf [.int 0]) (vlOf [.int 3]) rfl rfl rfl,
   c3_spread_semantics.1 "$spread(.Environment.Spec.Values.x)" (smOf [])
      ".Environment.Spec.Values.x" rfl⟩

/-! ## Claim C10: string-keyed mappings in the hydrated output -/

mutual

/-- No `map[any]any` node occurs anywhere in the value. -/
def noAMap : Val → Bool
  | .null => true
  | .bool _ => true
  | .int _ => true
  | .str _ => true
  | .seq items => noAMapL items
  | .smap m => noAMapS m
  | .amap _ => false
termination_by structural v => v

def noAMapL : ValList → Bool
  | .nil => true
  | .cons v rest => noAMap v && noAMapL rest
termination_by structural l => l

def noAMapS : SMap → Bool
  | .nil => true
  | .cons _ v rest => noAMap v && noAMapS rest
termination_by structural m => m

end

theorem noAMapL_append : ∀ (a b : ValList),
    noAMapL (appendVL a b) = (noAMapL a && noAMapL b)
  | .nil, b => by simp [appendVL, noAMapL]
  | .cons x xs, b => by
    simp [appendVL, noAMapL, noAMapL_append xs b, Bool.and_assoc]
termination_by structural a => a

theorem lookupSMap_noAMap : ∀ (m : SMap) (k : String) (v : Val),
    noAMapS m = true → lookupSMap m k = some v → noAMap v = true
  | .nil, _, _, _, h => by simp [lookupSMap] at h
  | .cons k' v' rest, k, v, hm, h => by
    have hm' : noAMap v' = true ∧ noAMapS rest = true := by
      simpa [noAMapS, Bool.and_eq_true] using hm
    by_cases hk : k' = k
    · simp [lookupSMap, hk] at h
      exact h ▸ hm'.1
    · simp [lookupSMap, hk] at h
      exact lookupSMap_noAMap rest k v hm'.2 h
termination_by structural m => m

theorem resolveObjectValue_noAMap :
    ∀ (path : List String) (env : SMap) (v : Val), noAMapS env = true →
      resolveObjectValue env path = .ok v → noAMap v = true := by
  intro path
  induction path with
  | nil => intro env v _ h; simp [resolveObjectValue] at h
  | cons key rest ih =>
    intro env v henv h
    cases hl : lookupSMap env key with
    | none => simp [resolveObjectValue, hl] at h
    | some w =>
      cases rest with
      | nil =>
        simp [resolveObjectValue, hl] at h
        exact h ▸ lookupSMap_noAMap env key w henv hl
      | cons k2 r2 =>
        cases w with
        | smap sub =>
          have hsub : noAMapS sub = true := by
            simpa [noAMap] using lookupSMap_noAMap env key (.smap sub) henv hl
          have h' : resolveObjectValue sub (k2 :: r2) = .ok v := by
            simpa [resolveObjectValue, hl] using h
          exact ih sub v hsub h'
        | null => simp [resolveObjectValue, hl] at h
        | bool b => simp [resolveObjectValue, hl] at h
        | int n => simp [resolveObjectValue, hl] at h
        | str s => simp [resolveObjectValue, hl] at h
        | seq l => simp [resolveObjectValue, hl] at h
        | amap a => simp [resolveObjectValue, hl] at h

theorem resolveOperatorAndValue_noAMap (s : String) (env : SMap) (op : String)
    (v : Val) (henv : noAMapS env = true)
    (h : resolveOperatorAndValue s env = .ok (op, v)) : noAMap v = true := by
  cases hp : parseDsl s with
  | none =>
    simp [resolveOperatorAndValue, hp] at h
    exact h.2 ▸ rfl
  | some p =>
    obtain ⟨o, fp⟩ := p
    by_cases hop : ¬o = "spread" ∧ ¬o = "ref"
    · simp [resolveOperatorAndValue, hp, hop] at h
    · by_cases hroot : goHasPrefix objectValuesSupportedRoot.data fp.data = true
      · cases hres : resolveObjectValue env (refPathSegs fp) with
        | error e => simp [resolveOperatorAndValue, hp, hop, hroot, hres] at h
        | ok rv =>
          have hv : v = rv := by
            simp [resolveOperatorAndValue, hp, hop, hroot, hres] at h
            exact h.2.symm
          exact hv ▸ resolveObjectValue_noAMap _ env rv henv hres
      · have hroot' : goHasPrefix objectValuesSupportedRoot.data fp.data = false :=
          Bool.not_eq_true _ ▸ eq_false_of_ne_true hroot
        simp [resolveOperatorAndValue, hp, hop, hroot'] at h

mutual

/-- Hydration output of any value is free of `map[any]any` nodes,
provided the environment's value tree is. -/
theorem hydrate_noAMap : ∀ (v : Val) (env : SMap) (r : Val),
    noAMapS env = true → hydrateObjectValue v env = .ok r → noAMap r = true
  | .null, env, r, _, h => by
    simp [hydrateObjectValue] at h
    simp [← h, noAMap]
  | .bool b, env, r, _, h => by
    simp [hydrateObjectValue] at h
    simp [← h, noAMap]
  | .int n, env, r, _, h => by
    simp [hydrateObjectValue] at h
    simp [← h, noAMap]
  | .str s, env, r, henv, h => by
    cases hres : resolveOperatorAndValue s env with
    | error e => simp [hydrateObjectValue, hres] at h
    | ok p =>
      obtain ⟨op, v⟩ := p
      have hv : noAMap v = true := resolveOperatorAndValue_noAMap s env op v henv hres
      by_cases hop : ¬op = "" ∧ ¬op = "ref"
      · simp [hydrateObjectValue, hres, hop] at h
      · simp [hydrateObjectValue, hres, hop] at h
        exact h ▸ hv
  | .seq items, env, r, henv, h => by
    cases hl : hydrateSeqItems items env with
    | error e => simp [hydrateObjectValue, hl] at h
    | ok rs =>
      simp [hydrateObjectValue, hl] at h
      have := hydrateL_noAMap items env rs henv hl
      simp [← h, noAMap, this]
  | .smap entries, env, r, henv, h => by
    cases hm : hydrateSMapEntries entries env with
    | error e => simp [hydrateObjectValue, hm] at h
    | ok rm =>
      simp [hydrateObjectValue, hm] at h
      have := hydrateS_noAMap entries env rm henv hm
      simp [← h, noAMap, this]
  | .amap entries, env, r, henv, h => by
    cases hm : hydrateAMapEntries entries env with
    | error e => simp [hydrateObjectValue, hm] at h
    | ok rm =>
      simp [hydrateObjectValue, hm] at h
      have := hydrateA_noAMap entries env rm henv hm
      simp [← h, noAMap, this]

theorem hydrateS_noAMap : ∀ (m : SMap) (env : SMap) (r : SMap),
    noAMapS env = true → hydrateSMapEntries m env = .ok r → noAMapS r = true
  | .nil, env, r, _, h => by
    simp [hydrateSMapEntries] at h
    simp [← h, noAMapS]
  | .cons k v rest, env, r, henv, h => by
    cases hv : hydrateObjectValue v env with
    | error e => simp [hydrateSMapEntries, hv] at h
    | ok v' =>
      cases hr : hydrateSMapEntries rest env with
      | error e => simp [hydrateSMapEntries, hv, hr] at h
      | ok rs =>
        simp [hydrateSMapEntries, hv, hr] at h
        have h1 := hydrate_noAMap v env v' henv hv
        have h2 := hydrateS_noAMap rest env rs henv hr
        simp [← h, noAMapS, h1, h2]

theorem hydrateA_noAMap : ∀ (m : AMap) (env : SMap) (r : SMap),
    noAMapS env = true → hydrateAMapEntries m env = .ok r → noAMapS r = true
  | .nil, env, r, _, h => by
    simp [hydrateAMapEntries] at h
    simp [← h, noAMapS]
  | .cons k v rest, env, r, henv, h => by
    cases hv : hydrateObjectValue v env with
    | error e => simp [hydrateAMapEntries, hv] at h
    | ok v' =>
      cases hr : hydrateAMapEntries rest env with
      | error e => simp [hydrateAMapEntries, hv, hr] at h
      | ok rs =>
        simp [hydrateAMapEntries, hv, hr] at h
        have h1 := hydrate_noAMap v env v' henv hv
        have h2 := hydrateA_noAMap rest env rs henv hr
        simp [← h, noAMapS, h1, h2]

theorem hydrateL_noAMap : ∀ (l : ValList) (env : SMap) (r : ValList),
    noAMapS env = true → hydrateSeqItems l env = .ok r → noAMapL r = true
  | .nil, env, r, _, h => by
    simp [hydrateSeqItems] at h
    simp [← h, noAMapL]
  | .cons x xs, env, r, henv, h => by
    cases x with
    | str s =>
      cases hres : resolveOperatorAndValue s env with
      | error e => simp [hydrateSeqItems, hres] at h
      | ok p =>
        obtain ⟨op, v⟩ := p
        have hv : noAMap v = true := resolveOperatorAndValue_noAMap s env op v henv hres
        by_cases hop : op = "spread"
        · subst hop
          cases v with
          | seq its =>
            cases hxs : hydrateSeqItems xs env with
            | error e => simp [hydrateSeqItems, hres, hxs] at h
            | ok rs =>
              simp [hydrateSeqItems, hres, hxs] at h
              have h2 := hydrateL_noAMap xs env rs henv hxs
              have h1 : noAMapL its = true := by simpa [noAMap] using hv
              simp [← h, noAMapL_append, h1, h2]
          | null => simp [hydrateSeqItems, hres] at h
          | bool b => simp [hydrateSeqItems, hres] at h
          | int n => simp [hydrateSeqItems, hres] at h
          | str s2 => simp [hydrateSeqItems, hres] at h
          | smap m => simp [hydrateSeqItems, hres] at h
          | amap a => simp [hydrateSeqItems, hres] at h
        · cases hxs : hydrateSeqItems xs env with
          | error e => simp [hydrateSeqItems, hres, hop, hxs] at h
          | ok rs =>
            simp [hydrateSeqItems, hres, hop, hxs] at h
            have h2 := hydrateL_noAMap xs env rs henv hxs
            simp [← h, noAMapL, hv, h2]
    | null =>
      cases hx : hydrateObjectValue .null env with
      | error e => simp [hydrateSeqItems, hx] at h
      | ok x0 =>
        cases hxs : hydrateSeqItems xs env with
        | error e => simp [hydrateSeqItems, hx, hxs] at h
        | ok rs =>
          simp [hydrateSeqItems, hx, hxs] at h
          have h1 := hydrate_noAMap .null env x0 henv hx
          have h2 := hydrateL_noAMap xs env rs henv hxs
          simp [← h, noAMapL, h1, h2]
    | bool b =>
      cases hx : hydrateObjectValue (.bool b) env with
      | error e => simp [hydrateSeqItems, hx] at h
      | ok x0 =>
        cases hxs : hydrateSeqItems xs env with
        | error e => simp [hydrateSeqItems, hx, hxs] at h
        | ok rs =>
          simp [hydrateSeqItems, hx, hxs] at h
          have h1 := hydrate_noAMap (.bool b) env x0 henv hx
          have h2 := hydrateL_noAMap xs env rs henv hxs
          simp [← h, noAMapL, h1, h2]
    | int n =>
      cases hx : hydrateObjectValue (.int n) env with
      | error e => simp [hydrateSeqItems, hx] at h
      | ok x0 =>
        cases hxs : hydrateSeqItems xs env with
        | error e => simp [hydrateSeqItems, hx, hxs] at h
        | ok rs =>
          simp [hydrateSeqItems, hx, hxs] at h
          have h1 := hydrate_noAMap (.int n) env x0 henv hx
          have h2 := hydrateL_noAMap xs env rs henv hxs
          simp [← h, noAMapL, h1, h2]
    | seq l2 =>
      cases hx : hydrateObjectValue (.seq l2) env with
      | error e => simp [hydrateSeqItems, hx] at h
      | ok x0 =>
        cases hxs : hydrateSeqItems xs env with
        | error e => simp [hydrateSeqItems, hx, hxs] at h
        | ok rs =>
          simp [hydrateSeqItems, hx, hxs] at h
          have h1 := hydrate_noAMap (.seq l2) env x0 henv hx
          have h2 := hydrateL_noAMap xs env rs henv hxs
          simp [← h, noAMapL, h1, h2]
    | smap m =>
      cases hx : hydrateObjectValue (.smap m) env with
      | error e => simp [hydrateSeqItems, hx] at h
      | ok x0 =>
        cases hxs : hydrateSeqItems xs env with
        | error e => simp [hydrateSeqItems, hx, hxs] at h
        | ok rs =>
          simp [hydrateSeqItems, hx, hxs] at h
          have h1 := hydrate_noAMap (.smap m) env x0 henv hx
          have h2 := hydrateL_noAMap xs env rs henv hxs
          simp [← h, noAMapL, h1, h2]
    | amap a =>
      cases hx : hydrateObjectValue (.amap a) env with
      | error e => simp [hydrateSeqItems, hx] at h
      | ok x0 =>
        cases hxs : hydrateSeqItems xs env with
        | error e => simp [hydrateSeqItems, hx, hxs] at h
        | ok rs =>
          simp [hydrateSeqItems, hx, hxs] at h
          have h1 := hydrate_noAMap (.amap a) env x0 henv hx
          have h2 := hydrateL_noAMap xs env rs henv hxs
          simp [← h, noAMapL, h1, h2]

end

/-- The keys of a string-keyed map, in entry order. -/
def smapKeys : SMap → List String
  | .nil => []
  | .cons k _ rest => k :: smapKeys rest
termination_by structural m => m

/-- The keys of a `map[any]any`, in entry order. -/
def amapKeys : AMap → List Val
  | .nil => []
  | .cons k _ rest => k :: amapKeys rest
termination_by structural m => m

/-- A rebuilt `map[any]any` carries exactly the `fmt.Sprint`-rendered
original keys. -/
theorem hydrateAMapEntries_keys : ∀ (entries : AMap) (env : SMap) (r : SMap),
    hydrateAMapEntries entries env = .ok r →
    smapKeys r = (amapKeys entries).map sprint
  | .nil, env, r, h => by
    simp [hydrateAMapEntries] at h
    simp [← h, smapKeys, amapKeys]
  | .cons k v rest, env, r, h => by
    cases hv : hydrateObjectValue v env with
    | error e => simp [hydrateAMapEntries, hv] at h
    | ok v' =>
      cases hr : hydrateAMapEntries rest env with
      | error e => simp [hydrateAMapEntries, hv, hr] at h
      | ok rs =>
        simp [hydrateAMapEntries, hv, hr] at h
        have := hydrateAMapEntries_keys rest env rs hr
        simp [← h, smapKeys, amapKeys, this]
termination_by structural entries => entries

/-- C10 (counterexample): the claim "the hydrated output never contains
a non-string mapping key" fails when the environment's own value tree
holds a `map[any]any` and a `$ref` splices it verbatim: against
environment values `{x: {1: "y"}}` (integer key), hydrating
`{r: "$ref(.Environment.Spec.Values.x)"}` returns a tree containing
that non-string-keyed mapping unchanged. -/
theorem c10_counterexample :
    hydrateObjectValues (smOf [("r", .str "$ref(.Environment.Spec.Values.x)")])
      (smOf [("x", .amap (.cons (.int 1) (.str "y") .nil))]) =
      .ok (smOf [("r", .amap (.cons (.int 1) (.str "y") .nil))]) ∧
    noAMapS (smOf [("r", .amap (.cons (.int 1) (.str "y") .nil))]) = false :=
  ⟨rfl, rfl⟩

/-- C10 (amended): every mapping the DSL-resolution stage itself
rebuilds is string-keyed — `map[any]any` nodes of the release's tree
are rebuilt with each key rendered by `fmt.Sprint` — so, provided the
environment's value tree contains no non-string-keyed mapping (values
spliced verbatim from it by `$ref`/`$spread` are not rebuilt), the
hydrated output never contains a non-string mapping key. -/
theorem c10_string_keyed_output :
    (∀ (values env : SMap) (r : SMap), noAMapS env = true →
      hydrateObjectValues values env = .ok r → noAMapS r = true) ∧
    (∀ (entries : AMap) (env : SMap) (r : Val),
      hydrateObjectValue (.amap entries) env = .ok r →
      ∃ m, r = .smap m ∧ smapKeys m = (amapKeys entries).map sprint) := by
  constructor
  · intro values env r henv h
    cases hv : hydrateObjectValue (.smap values) env with
    | error e => simp [hydrateObjectValues, hv] at h
    | ok w =>
      have hw : noAMap w = true := hydrate_noAMap (.smap values) env w henv hv
      cases w with
      | smap m =>
        simp [hydrateObjectValues, hv] at h
        have : noAMapS m = true := by simpa [noAMap] using hw
        exact h ▸ this
      | null => simp [hydrateObjectValues, hv] at h
      | bool b => simp [hydrateObjectValues, hv] at h
      | int n => simp [hydrateObjectValues, hv] at h
      | str s => simp [hydrateObjectValues, hv] at h
      | seq l => simp [hydrateObjectValues, hv] at h
      | amap a => simp [hydrateObjectValues, hv] at h
  · intro entries env r h
    cases hm : hydrateAMapEntries entries env with
    | error e => simp [hydrateObjectValue, hm] at h
    | ok rm =>
      simp [hydrateObjectValue, hm] at h
      exact ⟨rm, h.symm, hydrateAMapEntries_keys entries env rm hm⟩

/-- C10 (witness): both parts at concrete inputs — an all-string-keyed
environment yields an all-string-keyed output, and an integer-keyed
input mapping is rebuilt with the key `"1"`. -/
theorem c10_witness :
    noAMapS (smOf [("x", .int 5)]) = true ∧
    ∃ m, (Val.smap (smOf [("1", .str "y")]) : Val) = .smap m ∧
      smapKeys m = (amapKeys (.cons (.int 1) (.str "y") .nil)).map sprint :=
  ⟨c10_string_keyed_output.1 (smOf [("x", .str "$ref(.Environment.Spec.Values.a.b)")])
      envAB (smOf [("x", .int 5)]) rfl rfl,
   c10_string_keyed_output.2 (.cons (.int 1) (.str "y") .nil) (smOf [])
      (.smap (smOf [("1", .str "y")])) rfl⟩

/-! ## Claims C7 and C8: the promotion-graph candidates -/

theorem sourceNamePool_aux :
    ∀ (envs : List Environment) (acc : List String) (n : String),
      n ∈ envs.foldl (fun acc env => acc ++ env.fromEnvironments) acc ↔
        n ∈ acc ∨ ∃ e ∈ envs, n ∈ e.fromEnvironments := by
  intro envs
  induction envs with
  | nil => intro acc n; simp
  | cons e rest ih =>
    intro acc n
    simp only [List.foldl_cons]
    rw [ih]
    simp only [List.mem_append, List.mem_cons]
    constructor
    · rintro ((h | h) | ⟨e2, h2, h3⟩)
      · exact Or.inl h
      · exact Or.inr ⟨e, Or.inl rfl, h⟩
      · exact Or.inr ⟨e2, Or.inr h2, h3⟩
    · rintro (h | ⟨e2, (rfl | h2), h3⟩)
      · exact Or.inl (Or.inl h)
      · exact Or.inl (Or.inr h3)
      · exact Or.inr ⟨e2, h2, h3⟩

theorem mem_sourceNamePool (envs : List Environment) (n : String) :
    n ∈ sourceNamePool envs ↔ ∃ e ∈ envs, n ∈ e.fromEnvironments := by
  rw [sourceNamePool, sourceNamePool_aux]
  simp

theorem sourceCandidates_aux (pool : List String) :
    ∀ (envs : List Environment) (acc : List Environment) (x : Environment),
      x ∈ envs.foldl
        (fun acc env => if pool.contains env.name then acc ++ [env] else acc) acc ↔
        x ∈ acc ∨ (x ∈ envs ∧ pool.contains x.name = true) := by
  intro envs
  induction envs with
  | nil => intro acc x; simp
  | cons e rest ih =>
    intro acc x
    simp only [List.foldl_cons]
    by_cases hp : pool.contains e.name
    · rw [if_pos hp, ih]
      simp only [List.mem_append, List.mem_cons]
      constructor
      · rintro ((h | (rfl | hnil)) | ⟨h2, h3⟩)
        · exact Or.inl h
        · exact Or.inr ⟨Or.inl rfl, hp⟩
        · exact absurd hnil (List.not_mem_nil _)
        · exact Or.inr ⟨Or.inr h2, h3⟩
      · rintro (h | ⟨(rfl | h2), h3⟩)
        · exact Or.inl (Or.inl h)
        · exact Or.inl (Or.inr (Or.inl rfl))
        · exact Or.inr ⟨h2, h3⟩
    · rw [if_neg hp, ih]
      simp only [List.mem_cons]
      constructor
      · rintro (h | ⟨h2, h3⟩)
        · exact Or.inl h
        · exact Or.inr ⟨Or.inr h2, h3⟩
      · rintro (h | ⟨(rfl | h2), h3⟩)
        · exact Or.inl h
        · exact absurd h3 hp
        · exact Or.inr ⟨h2, h3⟩

theorem mem_sourceCandidates (envs : List Environment) (x : Environment) :
    x ∈ sourceCandidates envs ↔
      x ∈ envs ∧ (sourceNamePool envs).contains x.name = true := by
  rw [sourceCandidates, sourceCandidates_aux]
  simp

theorem targetCandidates_inner_aux (env : Environment) (srcName : String) :
    ∀ (froms : List String) (acc : List Environment) (x : Environment),
      x ∈ froms.foldl
        (fun acc2 source => if source = srcName then acc2 ++ [env] else acc2) acc ↔
        x ∈ acc ∨ (x = env ∧ srcName ∈ froms) := by
  intro froms
  induction froms with
  | nil => intro acc x; simp
  | cons f rest ih =>
    intro acc x
    simp only [List.foldl_cons]
    by_cases hf : f = srcName
    · rw [if_pos hf, ih]
      simp only [List.mem_append, List.mem_cons]
      constructor
      · rintro ((h | (rfl | hnil)) | ⟨rfl, h3⟩)
        · exact Or.inl h
        · exact Or.inr ⟨rfl, Or.inl hf.symm⟩
        · exact absurd hnil (List.not_mem_nil _)
        · exact Or.inr ⟨rfl, Or.inr h3⟩
      · rintro (h | ⟨rfl, (h3 | h3)⟩)
        · exact Or.inl (Or.inl h)
        · exact Or.inl (Or.inr (Or.inl rfl))
        · exact Or.inr ⟨rfl, h3⟩
    · rw [if_neg hf, ih]
      simp only [List.mem_cons]
      constructor
      · rintro (h | ⟨rfl, h3⟩)
        · exact Or.inl h
        · exact Or.inr ⟨rfl, Or.inr h3⟩
      · rintro (h | ⟨rfl, (h3 | h3)⟩)
        · exact Or.inl h
        · exact absurd h3.symm hf
        · exact Or.inr ⟨rfl, h3⟩

theorem targetCandidates_aux (src : Environment) :
    ∀ (envs : List Environment) (acc : List Environment) (x : Environment),
      x ∈ envs.foldl
        (fun acc env =>
          if env.name ≠ src.name then
            env.fromEnvironments.foldl
              (fun acc2 source => if source = src.name then acc2 ++ [env] else acc2)
              acc
          else acc)
        acc ↔
        x ∈ acc ∨ (x ∈ envs ∧ x.name ≠ src.name ∧ src.name ∈ x.fromEnvironments) := by
  intro envs
  induction envs with
  | nil => intro acc x; simp
  | cons e rest ih =>
    intro acc x
    simp only [List.foldl_cons]
    by_cases hne : e.name ≠ src.name
    · rw [if_pos hne, ih, targetCandidates_inner_aux]
      simp only [List.mem_cons]
      constructor
      · rintro ((h | ⟨rfl, h3⟩) | ⟨h2, h3, h4⟩)
        · exact Or.inl h
        · exact Or.inr ⟨Or.inl rfl, hne, h3⟩
        · exact Or.inr ⟨Or.inr h2, h3, h4⟩
      · rintro (h | ⟨(rfl | h2), h3, h4⟩)
        · exact Or.inl (Or.inl h)
        · exact Or.inl (Or.inr ⟨rfl, h4⟩)
        · exact Or.inr ⟨h2, h3, h4⟩
    · rw [if_neg hne, ih]
      simp only [List.mem_cons]
      constructor
      · rintro (h | ⟨h2, h3, h4⟩)
        · exact Or.inl h
        · exact Or.inr ⟨Or.inr h2, h3, h4⟩
      · rintro (h | ⟨(rfl | h2), h3, h4⟩)
        · exact Or.inl h
        · exact absurd h3 hne
        · exact Or.inr ⟨h2, h3, h4⟩

theorem mem_targetCandidates (envs : List Environment) (src x : Environment) :
    x ∈ targetCandidates envs src ↔
      x ∈ envs ∧ x.name ≠ src.name ∧ src.name ∈ x.fromEnvironments := by
  rw [targetCandidates, targetCandidates_aux]
  simp

/-- The self-promoting environment of the C7 counterexample. -/
def devSelfEnv : Environment := ⟨"dev", ["dev"], false⟩

/-- C7 (counterexample): the claim says candidate sources are the
environments named in some **other** environment's `fromEnvironments`
(so for the single self-referencing environment `dev` the set would be
empty and the validator would fail) — but the code does not exclude the
environment itself and happily returns `dev` as a source candidate. -/
theorem c7_counterexample :
    getSourceEnvironments [devSelfEnv] = .ok [devSelfEnv] ∧
    ¬ ∃ e₂, e₂ ∈ [devSelfEnv] ∧ e₂ ≠ devSelfEnv ∧
      devSelfEnv.name ∈ e₂.fromEnvironments := by
  refine ⟨rfl, ?_⟩
  rintro ⟨e₂, he, hne, _⟩
  simp only [List.mem_singleton] at he
  exact hne he

/-- C7 (amended): the candidate SOURCE environments are exactly the
environments whose name appears in some environment's
`fromEnvironments` list (possibly their own), and the validator fails
with the "no promotable sources" error exactly when that candidate set
is empty. -/
theorem c7_source_candidates :
    ∀ (envs : List Environment),
      (∀ l, getSourceEnvironments envs = .ok l →
        ∀ e, (e ∈ l ↔ e ∈ envs ∧ ∃ e₂ ∈ envs, e.name ∈ e₂.fromEnvironments)) ∧
      (getSourceEnvironments envs = .error "no promotable source environments found" ↔
        ¬ ∃ e ∈ envs, ∃ e₂ ∈ envs, e.name ∈ e₂.fromEnvironments) := by
  intro envs
  have hmem : ∀ e, e ∈ sourceCandidates envs ↔
      e ∈ envs ∧ ∃ e₂ ∈ envs, e.name ∈ e₂.fromEnvironments := by
    intro e
    rw [mem_sourceCandidates]
    constructor
    · rintro ⟨h1, h2⟩
      refine ⟨h1, ?_⟩
      rw [← mem_sourceNamePool]
      exact List.mem_of_elem_eq_true h2
    · rintro ⟨h1, h2⟩
      exact ⟨h1, List.elem_eq_true_of_mem ((mem_sourceNamePool envs e.name).mpr h2)⟩
  constructor
  · intro l hl e
    unfold getSourceEnvironments at hl
    by_cases hz : (sourceCandidates envs).isEmpty
    · simp [hz] at hl
    · simp [hz] at hl
      rw [← hl]
      exact hmem e
  · unfold getSourceEnvironments
    by_cases hz : (sourceCandidates envs).isEmpty
    · simp only [hz, if_true]
      have hnil : sourceCandidates envs = [] := List.isEmpty_iff.mp hz
      constructor
      · rintro - ⟨e, he, h2⟩
        have hmem2 := (hmem e).mpr ⟨he, h2⟩
        rw [hnil] at hmem2
        simp at hmem2
      · intro _; trivial
    · simp only [hz, if_false]
      have hne : sourceCandidates envs ≠ [] := by
        intro hc
        exact hz (by simp [hc])
      obtain ⟨e, he⟩ := List.exists_mem_of_ne_nil _ hne
      constructor
      · intro h; exact absurd h (by simp)
      · intro hno
        exact absurd ⟨e, ((hmem e).mp he).1, ((hmem e).mp he).2⟩ hno

/-- C8: the candidate TARGET environments are exactly the environments
other than the chosen source (environments carry unique names, so
"other than the source" is the name comparison the code performs) whose
`fromEnvironments` contains the source's name; the validator fails when
no such environment exists; and consequently an environment with an
empty `fromEnvironments` can never be a promotion target. -/
theorem c8_target_candidates :
    ∀ (envs : List Environment) (src : Environment),
      (∀ l, getTargetEnvironments envs src = .ok l →
        ∀ e, (e ∈ l ↔ e ∈ envs ∧ e.name ≠ src.name ∧ src.name ∈ e.fromEnvironments)) ∧
      (getTargetEnvironments envs src =
          .error ("no target environments found to promote from " ++ src.name) ↔
        ¬ ∃ e ∈ envs, e.name ≠ src.name ∧ src.name ∈ e.fromEnvironments) ∧
      (∀ l e, getTargetEnvironments envs src = .ok l → e ∈ l →
        e.fromEnvironments ≠ []) := by
  intro envs src
  have hmem := fun e => mem_targetCandidates envs src e
  refine ⟨?_, ?_, ?_⟩
  · intro l hl e
    unfold getTargetEnvironments at hl
    by_cases hz : (targetCandidates envs src).isEmpty
    · simp [hz] at hl
    · simp [hz] at hl
      rw [← hl]
      exact hmem e
  · unfold getTargetEnvironments
    by_cases hz : (targetCandidates envs src).isEmpty
    · simp only [hz, if_true]
      have hnil : targetCandidates envs src = [] := List.isEmpty_iff.mp hz
      constructor
      · rintro - ⟨e, he, h2, h3⟩
        have := (hmem e).mpr ⟨he, h2, h3⟩
        rw [hnil] at this
        simp at this
      · intro _; trivial
    · simp only [hz, if_false]
      have hne : targetCandidates envs src ≠ [] := by
        intro hc
        exact hz (by simp [hc])
      obtain ⟨e, he⟩ := List.exists_mem_of_ne_nil _ hne
      constructor
      · intro h; exact absurd h (by simp)
      · intro hno
        obtain ⟨h1, h2, h3⟩ := (hmem e).mp he
        exact absurd ⟨e, h1, h2, h3⟩ hno
  · intro l e hl hmeml
    unfold getTargetEnvironments at hl
    by_cases hz : (targetCandidates envs src).isEmpty
    · simp [hz] at hl
    · simp [hz] at hl
      rw [← hl] at hmeml
      obtain ⟨-, -, h3⟩ := (hmem e).mp hmeml
      exact List.ne_nil_of_mem h3

/-- The `staging` environment of the spec's end-to-end example. -/
def stagingEnv : Environment := ⟨"staging", [], false⟩

/-- The `prod` environment of the spec's end-to-end example. -/
def prodEnv : Environment := ⟨"prod", ["staging"], true⟩

/-- C7 (witness): on `[staging, prod]` the code returns exactly
`[staging]`, and the theorem's characterization applies. -/
theorem c7_witness : stagingEnv ∈ [stagingEnv] :=
  ((c7_source_candidates [stagingEnv, prodEnv]).1 [stagingEnv] rfl stagingEnv).mpr
    ⟨by simp, prodEnv, by simp, by simp [prodEnv, stagingEnv]⟩

/-- C8 (witness): on `[staging, prod]` with source `staging` the code
returns exactly `[prod]`, whose `fromEnvironments` is non-empty. -/
theorem c8_witness : prodEnv.fromEnvironments ≠ [] :=
  (c8_target_candidates [stagingEnv, prodEnv] stagingEnv).2.2 [prodEnv] prodEnv rfl
    (by simp)

/-! ## Claims C1 and C6: the `Promote` run contract -/

/-- A run is a no-op for one of the reasons the spec lists: the stages
up to the cross-release list succeed and either nothing is promotable,
or the user reaches one of the two cancellation prompts (the
confirm-creating prompt answered "no", or the create-PR selection
answered "cancel") and cancels. -/
def NoopCause (deps : PromoteDeps) (opts : PromoteOpts) : Prop :=
  ∃ src tgt list,
    deps.ensureCleanAndUpToDateWorkingCopy = .ok () ∧
    resolveSourceEnv deps opts = .ok src ∧
    resolveTargetEnv deps opts src = .ok tgt ∧
    ¬(¬ tgt.allowAutoMerge ∧ opts.autoMerge) ∧
    isPromotableTo src tgt = true ∧
    deps.getReleasesForPromotion src tgt = .ok list ∧
    (deps.hasAnyPromotableReleases list = false ∨
      (deps.hasAnyPromotableReleases list = true ∧
        ∃ sel, selectReleasesStep deps opts list = .ok sel ∧
          deps.getNonPromotableReleases sel src tgt = [] ∧
          opts.noPrompt = false ∧ previewList deps sel = .ok () ∧
          (((opts.autoMerge ∨ opts.draft) ∧
              deps.confirmCreatingPromotionPullRequest opts.autoMerge opts.draft =
                .ok false) ∨
            (¬(opts.autoMerge ∨ opts.draft) ∧
              deps.selectCreatingPromotionPullRequest = .ok .cancel))))

/-- Every `Promote` run ends in exactly one of three ways: a typed
error with no file written, an empty success with no file written for a
no-op cause, or a hand-off to `perform`. -/
theorem promote_outcomes (deps : PromoteDeps) (opts : PromoteOpts) :
    (∃ msg, Promote deps opts = (.error msg, [])) ∨
    (Promote deps opts = (.ok "", []) ∧ NoopCause deps opts) ∨
    (∃ params, Promote deps opts = deps.perform params) := by
  cases h1 : deps.ensureCleanAndUpToDateWorkingCopy with
  | error e => exact Or.inl ⟨e, by simp [Promote, h1]⟩
  | ok u =>
  obtain ⟨⟩ := u
  cases h2 : resolveSourceEnv deps opts with
  | error e => exact Or.inl ⟨e, by simp [Promote, h1, h2]⟩
  | ok src =>
  cases h3 : resolveTargetEnv deps opts src with
  | error e => exact Or.inl ⟨e, by simp [Promote, h1, h2, h3]⟩
  | ok tgt =>
  by_cases h4 : ¬ tgt.allowAutoMerge ∧ opts.autoMerge
  · exact Or.inl ⟨_, by simp only [Promote, h1, h2, h3]; rw [if_pos h4]⟩
  by_cases h5 : isPromotableTo src tgt = true
  case neg =>
    exact Or.inl ⟨_, by
      simp only [Promote, h1, h2, h3]
      rw [if_neg h4, if_pos (by simpa using h5)]⟩
  cases h6 : deps.getReleasesForPromotion src tgt with
  | error e =>
    exact Or.inl ⟨_, by
      simp only [Promote, h1, h2, h3, h6]
      rw [if_neg h4, if_neg (by simp [h5])]⟩
  | ok list =>
  by_cases h7 : deps.hasAnyPromotableReleases list = true
  case neg =>
    refine Or.inr (Or.inl ⟨?_, src, tgt, list, h1, h2, h3, h4, h5, h6,
      Or.inl (by simpa using h7)⟩)
    simp only [Promote, h1, h2, h3, h6]
    rw [if_neg h4, if_neg (by simp [h5]), if_pos (by simpa using h7)]
  cases h8 : selectReleasesStep deps opts list with
  | error e =>
    exact Or.inl ⟨_, by
      simp only [Promote, h1, h2, h3, h6, h8]
      rw [if_neg h4, if_neg (by simp [h5]), if_neg (by simp [h7])]⟩
  | ok sel =>
  by_cases h9 : deps.getNonPromotableReleases sel src tgt ≠ []
  · exact Or.inl ⟨_, by
      simp only [Promote, h1, h2, h3, h6, h8]
      rw [if_neg h4, if_neg (by simp [h5]), if_neg (by simp [h7]), if_pos h9]⟩
  push_neg at h9
  by_cases hnp : opts.noPrompt = true
  · exact Or.inr (Or.inr ⟨_, by
      simp only [Promote, h1, h2, h3, h6, h8, hnp]
      rw [if_neg h4, if_neg (by simp [h5]), if_neg (by simp [h7]),
        if_neg (by simp [h9]), if_neg (by simp)]
      simp <;> rfl⟩)
  have hnp' : opts.noPrompt = false := by simpa using hnp
  cases h10 : previewList deps sel with
  | error e =>
    exact Or.inl ⟨_, by
      simp only [Promote, h1, h2, h3, h6, h8, hnp', h10]
      rw [if_neg h4, if_neg (by simp [h5]), if_neg (by simp [h7]),
        if_neg (by simp [h9])]
      simp <;> rfl⟩
  | ok u =>
  obtain ⟨⟩ := u
  by_cases h11 : opts.autoMerge ∨ opts.draft
  · cases h12 : deps.confirmCreatingPromotionPullRequest opts.autoMerge opts.draft with
    | error e =>
      exact Or.inl ⟨_, by
        simp only [Promote, h1, h2, h3, h6, h8, hnp', h10, h12]
        rw [if_neg h4, if_neg (by simp [h5]), if_neg (by simp [h7]),
          if_neg (by simp [h9])]
        simp [hnp', h11] <;> rfl⟩
    | ok confirmed =>
      cases confirmed with
      | false =>
        refine Or.inr (Or.inl ⟨?_, src, tgt, list, h1, h2, h3, h4, h5, h6,
          Or.inr ⟨h7, sel, h8, h9, hnp', h10, Or.inl ⟨h11, h12⟩⟩⟩)
        simp only [Promote, h1, h2, h3, h6, h8, hnp', h10, h12]
        rw [if_neg h4, if_neg (by simp [h5]), if_neg (by simp [h7]),
          if_neg (by simp [h9])]
        simp [hnp', h11]
      | true =>
        exact Or.inr (Or.inr ⟨_, by
          simp only [Promote, h1, h2, h3, h6, h8, hnp', h10, h12]
          rw [if_neg h4, if_neg (by simp [h5]), if_neg (by simp [h7]),
            if_neg (by simp [h9])]
          simp [hnp', h11] <;> rfl⟩)
  · cases h12 : deps.selectCreatingPromotionPullRequest with
    | error e =>
      exact Or.inl ⟨_, by
        simp only [Promote, h1, h2, h3, h6, h8, hnp', h10, h12]
        rw [if_neg h4, if_neg (by simp [h5]), if_neg (by simp [h7]),
          if_neg (by simp [h9])]
        simp [hnp', h11] <;> rfl⟩
    | ok answer =>
      cases answer with
      | ready =>
        by_cases h13 : tgt.allowAutoMerge = true
        · cases h14 : deps.confirmAutoMergePullRequest with
          | error e =>
            exact Or.inl ⟨_, by
              simp only [Promote, h1, h2, h3, h6, h8, hnp', h10, h12, h14]
              rw [if_neg h4, if_neg (by simp [h5]), if_neg (by simp [h7]),
                if_neg (by simp [h9])]
              simp [hnp', h11, h13] <;> rfl⟩
          | ok confirmed =>
            exact Or.inr (Or.inr ⟨_, by
              simp only [Promote, h1, h2, h3, h6, h8, hnp', h10, h12, h14]
              rw [if_neg h4, if_neg (by simp [h5]), if_neg (by simp [h7]),
                if_neg (by simp [h9])]
              simp [hnp', h11, h13] <;> rfl⟩)
        · exact Or.inr (Or.inr ⟨_, by
            simp only [Promote, h1, h2, h3, h6, h8, hnp', h10, h12]
            rw [if_neg h4, if_neg (by simp [h5]), if_neg (by simp [h7]),
              if_neg (by simp [h9])]
            simp [hnp', h11, h13] <;> rfl⟩)
      | draft =>
        exact Or.inr (Or.inr ⟨_, by
          simp only [Promote, h1, h2, h3, h6, h8, hnp', h10, h12]
          rw [if_neg h4, if_neg (by simp [h5]), if_neg (by simp [h7]),
            if_neg (by simp [h9])]
          simp [hnp', h11] <;> rfl⟩)
      | cancel =>
        refine Or.inr (Or.inl ⟨?_, src, tgt, list, h1, h2, h3, h4, h5, h6,
          Or.inr ⟨h7, sel, h8, h9, hnp', h10, Or.inr ⟨h11, h12⟩⟩⟩)
        simp only [Promote, h1, h2, h3, h6, h8, hnp', h10, h12]
        rw [if_neg h4, if_neg (by simp [h5]), if_neg (by simp [h7]),
          if_neg (by simp [h9])]
        simp [hnp', h11]

/-- C1: whenever the selected releases include any name reported by
`GetNonPromotableReleases` for the chosen source and target, `Promote`
returns the non-standard-version error and writes no release file —
the promotion is all-or-nothing, never a partial promotion of the
valid subset. -/
theorem c1_nonpromotable_aborts :
    ∀ (deps : PromoteDeps) (opts : PromoteOpts) (src tgt : Environment)
      (list sel : ReleaseListM),
      deps.ensureCleanAndUpToDateWorkingCopy = .ok () →
      resolveSourceEnv deps opts = .ok src →
      resolveTargetEnv deps opts src = .ok tgt →
      ¬(¬ tgt.allowAutoMerge ∧ opts.autoMerge) →
      isPromotableTo src tgt = true →
      deps.getReleasesForPromotion src tgt = .ok list →
      deps.hasAnyPromotableReleases list = true →
      selectReleasesStep deps opts list = .ok sel →
      deps.getNonPromotableReleases sel src tgt ≠ [] →
      Promote deps opts =
        (.error ("cannot promote releases with non-standard version to " ++
          tgt.name ++ " environment"), []) := by
  intro deps opts src tgt list sel h1 h2 h3 h4 h5 h6 h7 h8 h9
  simp only [Promote, h1, h2, h3, h6, h8]
  rw [if_neg h4, if_neg (by simp [h5]), if_neg (by simp [h7]), if_pos h9]

/-- C6: the promotion-run result contract — every run either fails with
an error having written nothing, succeeds emptily for a no-op cause
(nothing promotable, or cancellation at the confirm/create prompts), or
hands off to `perform` (which returns the created pull-request URL on
success); every no-op cause produces the empty success; and, provided
`perform` never reports success with an empty URL, an empty successful
result happens exactly in the no-op cases and writes nothing. -/
theorem c6_result_contract (deps : PromoteDeps) (opts : PromoteOpts) :
    ((∃ msg, Promote deps opts = (.error msg, [])) ∨
      (Promote deps opts = (.ok "", []) ∧ NoopCause deps opts) ∨
      (∃ params, Promote deps opts = deps.perform params)) ∧
    (NoopCause deps opts → Promote deps opts = (.ok "", [])) ∧
    ((∀ params, (deps.perform params).1 ≠ .ok "") →
      (Promote deps opts).1 = .ok "" →
      (Promote deps opts).2 = [] ∧ NoopCause deps opts) := by
  refine ⟨promote_outcomes deps opts, ?_, ?_⟩
  · rintro ⟨src, tgt, list, h1, h2, h3, h4, h5, h6, hcause⟩
    rcases hcause with h7 | ⟨h7, sel, h8, h9, hnp', h10, hfin⟩
    · simp only [Promote, h1, h2, h3, h6]
      rw [if_neg h4, if_neg (by simp [h5]), if_pos (by simp [h7])]
    · have h9' : ¬ deps.getNonPromotableReleases sel src tgt ≠ [] := by simp [h9]
      rcases hfin with ⟨h11, h12⟩ | ⟨h11, h12⟩
      · simp only [Promote, h1, h2, h3, h6, h8, hnp', h10, h12]
        rw [if_neg h4, if_neg (by simp [h5]), if_neg (by simp [h7]), if_neg h9']
        simp [hnp', h11]
      · simp only [Promote, h1, h2, h3, h6, h8, hnp', h10, h12]
        rw [if_neg h4, if_neg (by simp [h5]), if_neg (by simp [h7]), if_neg h9']
        simp [hnp', h11]
  · intro hperf hok
    rcases promote_outcomes deps opts with ⟨msg, hP⟩ | ⟨hP, hc⟩ | ⟨params, hP⟩
    · rw [hP] at hok
      simp at hok
    · rw [hP]
      exact ⟨rfl, hc⟩
    · rw [hP] at hok
      exact absurd hok (hperf params)

/-- A concrete cross-release list for the witnesses. -/
def demoList : ReleaseListM := ⟨[], (stagingEnv, prodEnv)⟩

/-- Concrete collaborator behaviors for the C1 witness: everything
succeeds, but the selected list contains the non-promotable `api`. -/
def demoDeps : PromoteDeps where
  ensureCleanAndUpToDateWorkingCopy := .ok ()
  selectSourceEnvironment := fun _ => .ok stagingEnv
  selectTargetEnvironment := fun _ => .ok prodEnv
  getReleasesForPromotion := fun _ _ => .ok demoList
  hasAnyPromotableReleases := fun _ => true
  onlySpecificReleases := fun l _ => l
  selectReleases := fun l => .ok l
  getNonPromotableReleases := fun _ _ _ => ["api"]
  printReleasePreview := fun _ _ _ _ => .ok ()
  confirmCreatingPromotionPullRequest := fun _ _ => .ok true
  selectCreatingPromotionPullRequest := .ok .cancel
  confirmAutoMergePullRequest := .ok false
  perform := fun _ => (.ok "https://github.example/pr/1", [1])

/-- Concrete options: both environments given explicitly, one release
preselected, interactive mode. -/
def demoOpts : PromoteOpts where
  sourceEnv := some stagingEnv
  targetEnv := some prodEnv
  releases := ["api"]
  releasesFiltered := false
  noPrompt := false
  autoMerge := false
  draft := false
  selectedEnvironments := [stagingEnv, prodEnv]
  dryRun := false

/-- C1 (witness): with a non-promotable selection the concrete run
returns the error and performs no write. -/
theorem c1_witness :
    Promote demoDeps demoOpts =
      (.error ("cannot promote releases with non-standard version to " ++
        prodEnv.name ++ " environment"), []) :=
  c1_nonpromotable_aborts demoDeps demoOpts stagingEnv prodEnv demoList demoList
    rfl rfl rfl (by simp [demoOpts, prodEnv]) rfl rfl rfl rfl (by simp [demoDeps])

/-- The C6 witness's collaborators: same as `demoDeps` but with nothing
promotable. -/
def demoDepsNothing : PromoteDeps :=
  { demoDeps with hasAnyPromotableReleases := fun _ => false }

/-- C6 (witness): with nothing promotable the concrete run is an empty
success without writes, via the no-op direction of the contract. -/
theorem c6_witness : Promote demoDepsNothing demoOpts = (.ok "", []) :=
  (c6_result_contract demoDepsNothing demoOpts).2.1
    ⟨stagingEnv, prodEnv, demoList, rfl, rfl, rfl,
      by simp [demoOpts, prodEnv], rfl, rfl, Or.inl rfl⟩

end Joy
